import Mathlib

set_option maxRecDepth 8000
set_option maxHeartbeats 2000000

/-!
Verification development for the evaluation core in src/src/eval.c of the Carp
lisp interpreter: a shallow embedding of the tree-walking evaluator (value
stack, latched error cell, call trace counter, mutable environment heap), of
the pattern matcher, of the applicator and of the top-level driver, together
with theorems about the testable properties of the specification.

Modelling conventions, fixed once for the whole file:

* C object pointers are modelled by the inductive type Obj.  The shared nil
  singleton has tag C and a NULL car and cdr in the C source; reader-built
  cons cells always have a non-NULL car and a non-NULL cdr (proper lists end
  with the nil object: the quote branch of eval_list compares o->cdr against
  the nil object by pointer).  A NULL Obj pointer can therefore only appear
  as the car or cdr of the nil object; eval_internal pushes nil when handed a
  NULL form, exactly the result of evaluating the nil object itself, so NULL
  form pointers are modelled as Obj.nil (helpers Obj.carD / Obj.cdrD).
* The process-wide mutable cells (stack array with stack_pos, the error cell,
  function_trace_pos, the environment heap, standard output) are gathered in
  the state record IState.  A fatal condition (exit(1) on stack or trace
  overflow, assert(false) on stack underflow) sets the crashed flag; once
  crashed, the stack primitives are inert, mirroring a dead process.
* C environments are mutable heap objects; they live in the envs field of the
  state and are referenced by index.  A binding found by env_lookup_binding
  is identified by its environment index and by its position counted from the
  END of the binding list, because env_extend prepends and a C pair pointer
  stays valid when the list grows at the front.
* General recursion of the C evaluator is modelled with a fuel parameter that
  every evaluator function decrements; exhausted fuel latches a distinguished
  error string (a modelling artefact that no real execution reaches given
  enough fuel).
* Code of this repository that is not under src/ (env.c, obj.c, assertions.h,
  the primop library, the reader, libffi) is modelled from the spec; each such
  definition carries a doc comment saying so.
-/

namespace Carp

/-- Value sum of the interpreter: one constructor per tag byte of the C Obj
struct (nil and cons share tag C; Y symbol, K keyword, E environment, L
lambda, M macro, P primop, F foreign, S string, I int, V float, Q void
pointer).  Lambdas, macros and environment literals reference a heap
environment by index; foreign values carry the presence bit of their native
function pointer, their argument-type list and their return type.  The float
payload is kept as an opaque bit pattern (no claim computes with floats) and
the native pointer of a Q value as a numeric address. -/
inductive Obj where
  | nil : Obj
  | bool (b : Bool) : Obj
  | int (i : Int) : Obj
  | float (bits : Nat) : Obj
  | str (s : String) : Obj
  | sym (name : String) : Obj
  | keyword (name : String) : Obj
  | cons (car cdr : Obj) : Obj
  | envRef (id : Nat) : Obj
  | lambda (params body : Obj) (envId : Nat) : Obj
  | mac (params body : Obj) (envId : Nat) : Obj
  | prim (name : String) : Obj
  | foreign (hasPtr : Bool) (argTypes retType : Obj) : Obj
  | ptr (addr : Nat) : Obj
deriving DecidableEq, Repr

/-- The car field; reading the car of the nil object yields NULL, which as a
form is modelled as nil (see the file header).  Non-cons non-nil objects never
sit on a list spine of a reader-built form. -/
def Obj.carD : Obj → Obj
  | .cons a _ => a
  | _ => .nil

/-- The cdr field, with the same NULL convention as Obj.carD. -/
def Obj.cdrD : Obj → Obj
  | .cons _ d => d
  | _ => .nil

/-- The C loop guard p && p->car: true exactly on cons cells (the nil object
has a NULL car). -/
def Obj.isConsB : Obj → Bool
  | .cons _ _ => true
  | _ => false

/-- Tag test for C (both the nil object and cons cells carry tag C). -/
def Obj.isC : Obj → Bool
  | .cons _ _ => true
  | .nil => true
  | _ => false

/-- Tag test for M. -/
def Obj.isMac : Obj → Bool
  | .mac _ _ _ => true
  | _ => false

/-- Builds a proper (nil-terminated) list object from a Lean list. -/
def fromList : List Obj → Obj
  | [] => Obj.nil
  | a :: rest => Obj.cons a (fromList rest)

/-- Modelled from the spec: the shared true singleton (obj.c is outside
src/). -/
def lisp_true : Obj := Obj.bool true

/-- Modelled from the spec: the shared false singleton. -/
def lisp_false : Obj := Obj.bool false

/-- Modelled from the spec: the interned symbol quote used by the pattern
matcher. -/
def lisp_quote : Obj := Obj.sym "quote"

/-- Modelled from the spec: the interned rest-pattern marker symbol. -/
def ampersand : Obj := Obj.sym "&"

/-- Modelled from the spec: the foreign type tag symbols int, float, string,
bool, void, ptr. -/
def type_int : Obj := Obj.sym "int"

/-- Modelled from the spec: foreign type tag float. -/
def type_float : Obj := Obj.sym "float"

/-- Modelled from the spec: foreign type tag string. -/
def type_string : Obj := Obj.sym "string"

/-- Modelled from the spec: foreign type tag bool. -/
def type_bool : Obj := Obj.sym "bool"

/-- Modelled from the spec: foreign type tag void. -/
def type_void : Obj := Obj.sym "void"

/-- Modelled from the spec: foreign pointer return type head. -/
def type_ptr : Obj := Obj.sym "ptr"

/-- Modelled from the spec: obj_eq is deep structural equality, same variant
with equal payloads, recursive on cons; interned singletons compare by
identity, and environment objects by heap identity. -/
def objEq : Obj → Obj → Bool
  | .nil, .nil => true
  | .bool a, .bool b => a == b
  | .int a, .int b => a == b
  | .float a, .float b => a == b
  | .str a, .str b => a == b
  | .sym a, .sym b => a == b
  | .keyword a, .keyword b => a == b
  | .cons a b, .cons c d => objEq a c && objEq b d
  | .envRef a, .envRef b => a == b
  | .lambda p1 b1 e1, .lambda p2 b2 e2 => objEq p1 p2 && objEq b1 b2 && e1 == e2
  | .mac p1 b1 e1, .mac p2 b2 e2 => objEq p1 p2 && objEq b1 b2 && e1 == e2
  | .prim a, .prim b => a == b
  | .foreign h1 a1 r1, .foreign h2 a2 r2 => h1 == h2 && objEq a1 a2 && objEq r1 r2
  | .ptr a, .ptr b => a == b
  | _, _ => false

/-- Modelled from the spec: truthiness; only nil and the false singleton are
falsy (is_true lives in obj.c, outside src/). -/
def is_true : Obj → Bool
  | .nil => false
  | .bool false => false
  | _ => true

/-- One heap environment: optional parent index plus an ordered binding list
(newest binding first, since env_extend prepends). -/
structure EnvD where
  parent : Option Nat
  bindings : List (Obj × Obj)
deriving DecidableEq, Repr

/-- The process-wide interpreter state: value stack (stack array up to
stack_pos, top first), the latched error cell, function_trace_pos, the
environment heap with the index of the global environment, the text printed
to standard output, and the crashed flag for fatal aborts. -/
structure IState where
  stack : List Obj
  error : Option Obj
  funcTracePos : Nat
  envs : List EnvD
  globalId : Nat
  out : List String
  crashed : Bool
deriving DecidableEq, Repr

/-- Modelled from the spec: STACK_SIZE is a fixed capacity constant declared
outside src/; only its finiteness matters (overflow is fatal), not its value. -/
def STACK_SIZE : Nat := 8192

/-- stack_push: fatal overflow when the stack is full, otherwise pushes; does
not consult the error cell. -/
def stackPush (o : Obj) (s : IState) : IState :=
  if s.crashed then s
  else if STACK_SIZE ≤ s.stack.length then { s with crashed := true }
  else { s with stack := o :: s.stack }

/-- stack_pop: returns nil without touching the stack while an error is
latched; popping an empty stack with no latched error is a fatal invariant
violation (assert(false)). -/
def stackPop (s : IState) : Obj × IState :=
  if s.crashed then (Obj.nil, s)
  else if s.error.isSome then (Obj.nil, s)
  else
    match s.stack with
    | [] => (Obj.nil, { s with crashed := true })
    | v :: rest => (v, { s with stack := rest })

/-- Pops n values into an argument array ordered first argument first
(args[count-i-1] = stack_pop() in the source reverses the pop order). -/
def popN : Nat → IState → List Obj × IState
  | 0, s => ([], s)
  | n + 1, s =>
    let (v, s1) := stackPop s
    let (rest, s2) := popN n s1
    (rest ++ [v], s2)

/-- Modelled from the spec: set_error and assert_or_set_error (assertions.h,
outside src/) latch an error string built from the message and a rendering of
the offending object, then return from the enclosing handler; obj_to_string
is outside src/, so the rendered suffix is elided and the latched string keeps
the literal message prefix. -/
def setErrorO (msg : String) (_offending : Obj) (s : IState) : IState :=
  { s with error := some (Obj.str msg) }

/-- Modelling artefact: exhausted fuel latches a distinguished error; no run
of the C program corresponds to this state, and every theorem supplies enough
fuel to keep it unreachable. -/
def fuelOut (s : IState) : IState :=
  { s with error := some (Obj.str "model: out of fuel") }

/-- Reads one heap environment (a malformed index yields an empty orphan
environment; reachable states never produce one). -/
def getEnv (s : IState) (i : Nat) : EnvD :=
  s.envs.getD i ⟨none, []⟩

/-- Replaces one heap environment. -/
def updateEnv (s : IState) (i : Nat) (e : EnvD) : IState :=
  { s with envs := s.envs.set i e }

/-- Modelled from the spec: obj_new_environment allocates a fresh child
environment with the given parent. -/
def envNew (parent : Nat) (s : IState) : Nat × IState :=
  (s.envs.length, { s with envs := s.envs ++ [⟨some parent, []⟩] })

/-- Modelled from the spec: env_extend prepends a binding so that later
lookups of the symbol in this environment find the new value. -/
def envExtend (i : Nat) (k v : Obj) (s : IState) : IState :=
  let e := getEnv s i
  updateEnv s i ⟨e.parent, (k, v) :: e.bindings⟩

/-- First binding of the list whose key is obj_eq to the searched key. -/
def bindingsLookup (bs : List (Obj × Obj)) (k : Obj) : Option Obj :=
  match bs with
  | [] => none
  | (k2, v) :: rest => if objEq k2 k then some v else bindingsLookup rest k

/-- Index of the first binding whose key is obj_eq to the searched key. -/
def bindingsFind (bs : List (Obj × Obj)) (k : Obj) : Option Nat :=
  match bs with
  | [] => none
  | (k2, _) :: rest =>
    if objEq k2 k then some 0
    else match bindingsFind rest k with
         | some n => some (n + 1)
         | none => none

/-- Modelled from the spec: env_lookup walks the parent chain, leaf first.
The chain fuel is bounded by the heap size because parents always point to
earlier-created environments. -/
def envLookupAux : Nat → IState → Nat → Obj → Option Obj
  | 0, _, _, _ => none
  | fz + 1, s, i, k =>
    let e := getEnv s i
    match bindingsLookup e.bindings k with
    | some v => some v
    | none =>
      match e.parent with
      | some p => envLookupAux fz s p k
      | none => none

/-- Walks the parent chain for a value bound to the key. -/
def envLookup (s : IState) (i : Nat) (k : Obj) : Option Obj :=
  envLookupAux (s.envs.length + 1) s i k

/-- Modelled from the spec: env_lookup_binding walks the parent chain and
returns the binding pair itself (here: environment index and position counted
from the end of the binding list, the stable address of the C pair under
later prepends), or nil when the key is unbound. -/
def envLookupBindingAux : Nat → IState → Nat → Obj → Option (Nat × Nat)
  | 0, _, _, _ => none
  | fz + 1, s, i, k =>
    let e := getEnv s i
    match bindingsFind e.bindings k with
    | some n => some (i, e.bindings.length - 1 - n)
    | none =>
      match e.parent with
      | some p => envLookupBindingAux fz s p k
      | none => none

/-- Walks the parent chain for the binding pair of the key. -/
def envLookupBindingLoc (s : IState) (i : Nat) (k : Obj) : Option (Nat × Nat) :=
  envLookupBindingAux (s.envs.length + 1) s i k

/-- Reads the binding pair addressed by environment index and position from
the end. -/
def envGetBinding (s : IState) (i posFromEnd : Nat) : Option (Obj × Obj) :=
  let e := getEnv s i
  e.bindings.get? (e.bindings.length - 1 - posFromEnd)

/-- Writes the value slot of the binding pair addressed by environment index
and position from the end (pair->cdr = value in the source). -/
def envSetBindingVal (s : IState) (i posFromEnd : Nat) (v : Obj) : IState :=
  let e := getEnv s i
  let idx := e.bindings.length - 1 - posFromEnd
  match e.bindings.get? idx with
  | some (k, _) => updateEnv s i ⟨e.parent, e.bindings.set idx (k, v)⟩
  | none => s

/-- Modelled from the spec: global_env_extend targets the root environment. -/
def globalEnvExtend (k v : Obj) (s : IState) : IState :=
  envExtend s.globalId k v s

/-- Modelled from the spec: env_extend_with_args binds the parameter symbols
positionally to the arguments; a parameter written &name collects the
remaining arguments into a list bound to name. -/
def envExtendWithArgs (i : Nat) : Obj → List Obj → IState → IState
  | Obj.cons (Obj.sym n) rest, args, s =>
    if n.startsWith "&" then
      envExtend i (Obj.sym (n.drop 1)) (fromList args) s
    else
      match args with
      | a :: moreArgs => envExtendWithArgs i rest moreArgs (envExtend i (Obj.sym n) a s)
      | [] => s
  | _, _, s => s

/-- Modelled from the spec: the primop library lives outside src/; only the
list constructor primitive, used by the testable-property scenarios of the
spec, is modelled. -/
def applyPrim (name : String) (args : List Obj) : Obj :=
  if name = "list" then fromList args else Obj.nil

mutual

/-- obj_match: a (quote X) pattern tests structural equality without binding;
a symbol pattern binds and always matches; two tag-C values list-match;
anything else matches iff obj_eq.  Fuelled only for the mutual recursion with
the list matcher. -/
def objMatch : Nat → Nat → Obj → Obj → IState → Bool × IState
  | 0, _, _, _, s => (false, fuelOut s)
  | fuel + 1, envId, attempt, value, s =>
    if attempt.isC && objEq attempt.carD lisp_quote && attempt.cdrD.isConsB then
      (objEq attempt.cdrD.carD value, s)
    else
      match attempt with
      | Obj.sym _ => (true, envExtend envId attempt value s)
      | _ =>
        if attempt.isC && value.isC then objMatchLists fuel envId attempt value s
        else (objEq attempt value, s)
termination_by structural fuel _ _ _ _ => fuel

/-- obj_match_lists: walks both spines; a pattern head & with a following
pattern element matches that element against the whole remaining subject; a
missing subject element fails; heads are matched recursively; when the
pattern spine ends, success iff the subject spine ended too. -/
def objMatchLists : Nat → Nat → Obj → Obj → IState → Bool × IState
  | 0, _, _, _, s => (false, fuelOut s)
  | fuel + 1, envId, attempt, value, s =>
    match attempt with
    | Obj.cons a1 d1 =>
      if objEq a1 ampersand && d1.isConsB then
        objMatch fuel envId d1.carD value s
      else
        match value with
        | Obj.cons v1 vd =>
          let (r, s1) := objMatch fuel envId a1 v1 s
          if r then objMatchLists fuel envId d1 vd s1 else (false, s1)
        | _ => (false, s)
    | _ =>
      match value with
      | Obj.cons _ _ => (false, s)
      | _ => (true, s)
termination_by structural fuel _ _ _ _ => fuel

end

/-- Marshalling walk of apply for a foreign function: for each argument, a
type cell must remain (p && p->cdr, the type pointer advancing only when a
cdr exists) or the call has too many arguments; the argument tag must agree
with the type symbol.  Returns the rest of the type list together with the
state. -/
def foreignCheckArgs (f : Obj) : List Obj → Obj → IState → Obj × IState
  | [], p, s => (p, s)
  | a :: rest, p, s =>
    match p with
    | Obj.cons t pr =>
      if objEq t type_int then
        match a with
        | Obj.int _ => foreignCheckArgs f rest pr s
        | _ => (p, setErrorO "Invalid type of arg: " a s)
      else if objEq t type_float then
        match a with
        | Obj.float _ => foreignCheckArgs f rest pr s
        | _ => (p, setErrorO "Invalid type of arg: " a s)
      else if objEq t type_string then
        match a with
        | Obj.str _ => foreignCheckArgs f rest pr s
        | _ => (p, setErrorO "Invalid type of arg: " a s)
      else if t.isC && objEq t.carD (Obj.keyword "ptr") then
        match a with
        | Obj.ptr _ => foreignCheckArgs f rest pr s
        | _ => (p, setErrorO "Invalid type of arg: " a s)
      else
        (p, setErrorO "Can\x27t call foreign function with argument of type " t s)
    | _ => (p, setErrorO "Too many arguments to " f s)

/-- Modelled from the spec: ffi_call runs the native function, which lives
outside this repository; the raw machine result is not derivable from the
source, so the unmarshalling keeps the source dispatch on the return type
with a fixed default raw value (NULL string, 0, false, 0.0, null pointer).
An unknown return type yields none (the Returning what? error). -/
def ffiDefaultResult (rt : Obj) : Option Obj :=
  if objEq rt type_string then some (Obj.str "")
  else if objEq rt type_int then some (Obj.int 0)
  else if objEq rt type_bool then some lisp_false
  else if objEq rt type_float then some (Obj.float 0)
  else if objEq rt type_void then some Obj.nil
  else if rt.isC && objEq rt.carD type_ptr then some (Obj.ptr 0)
  else none

mutual

/-- eval_internal: returns at once on a latched error; a NULL or nil form
pushes nil (via the list case for nil); a cons enters list evaluation; an
environment literal is copied with every binding value evaluated in the
enclosing environment and the copy pushed (even after an error, as in the
source, whose copy loop does not consult the error cell); a symbol resolves
against the lexical chain, latching an unbound-name error and pushing nil
when absent; everything else self-evaluates. -/
def evalInternal : Nat → Nat → Obj → IState → IState
  | 0, _, _, s => fuelOut s
  | fuel + 1, envId, o, s =>
    if s.crashed then s
    else if s.error.isSome then s
    else
      match o with
      | Obj.cons _ _ => evalList fuel envId o s
      | Obj.nil => evalList fuel envId o s
      | Obj.envRef srcId =>
        let src := getEnv s srcId
        let newId := s.envs.length
        let s1 := { s with envs := s.envs ++ [⟨src.parent, src.bindings⟩] }
        let (prs, s2) := evalDictPairs fuel envId src.bindings s1
        let s3 := updateEnv s2 newId ⟨src.parent, prs⟩
        stackPush (Obj.envRef newId) s3
      | Obj.sym n =>
        match envLookup s envId o with
        | none =>
          stackPush Obj.nil
            { s with error := some (Obj.str ("Can\x27t find \x27" ++ n ++ "\x27 in environment.")) }
        | some v => stackPush v s
      | _ => stackPush o s
termination_by structural fuel _ _ _ => fuel

/-- Binding-value loop of the environment-literal case: each binding value is
evaluated in the enclosing environment and replaced by the popped result; the
loop does not consult the error cell (pops after an error yield nil). -/
def evalDictPairs : Nat → Nat → List (Obj × Obj) → IState → List (Obj × Obj) × IState
  | 0, _, _, s => ([], fuelOut s)
  | _ + 1, _, [], s => ([], s)
  | fuel + 1, envId, (k, v) :: rest, s =>
    let s1 := evalInternal fuel envId v s
    let (v2, s2) := stackPop s1
    let (rest2, s3) := evalDictPairs fuel envId rest s2
    ((k, v2) :: rest2, s3)
termination_by structural fuel _ _ _ => fuel

/-- eval_list: an empty list pushes itself; a symbol head dispatches over the
reserved special forms in source order (do, let, not, quote, while, if,
match, reset!, fn, macro, def, def?); anything else is a general call. -/
def evalList : Nat → Nat → Obj → IState → IState
  | 0, _, _, s => fuelOut s
  | fuel + 1, envId, o, s =>
    if s.crashed then s
    else
      match o with
      | Obj.cons head rest =>
        match head with
        | Obj.sym n =>
          if n = "do" then evalDo fuel envId rest s
          else if n = "let" then
            let (letEnv, s1) := envNew envId s
            match rest with
            | Obj.cons bindings rest2 =>
              let s2 := evalLetBindings fuel letEnv bindings s1
              if s2.error.isSome then s2
              else
                match rest2 with
                | Obj.cons body _ => evalInternal fuel letEnv body s2
                | _ => setErrorO "No body in \x27let\x27 form." o s2
            | _ => setErrorO "No bindings in \x27let\x27 form." o s1
          else if n = "not" then evalNot fuel envId rest s
          else if n = "quote" then
            match rest with
            | Obj.nil => stackPush Obj.nil s
            | _ => stackPush rest.carD s
          else if n = "while" then
            let s1 := evalInternal fuel envId rest.carD s
            if s1.error.isSome then s1
            else evalWhileLoop fuel envId rest.carD rest.cdrD.carD s1
          else if n = "if" then
            let s1 := evalInternal fuel envId rest.carD s
            if s1.error.isSome then s1
            else
              let (c, s2) := stackPop s1
              if is_true c then evalInternal fuel envId rest.cdrD.carD s2
              else evalInternal fuel envId rest.cdrD.cdrD.carD s2
          else if n = "match" then
            let s1 := evalInternal fuel envId rest.carD s
            if s1.error.isSome then s1
            else
              let (v, s2) := stackPop s1
              matchClauses fuel envId v rest.cdrD s2
          else if n = "reset!" then
            match rest.carD with
            | Obj.sym key =>
              match envLookupBindingLoc s envId (Obj.sym key) with
              | some (ei, pe) =>
                match envGetBinding s ei pe with
                | some (Obj.sym _, _) =>
                  let s1 := evalInternal fuel envId rest.cdrD.carD s
                  if s1.error.isSome then s1
                  else
                    let (v, s2) := stackPop s1
                    let s3 := envSetBindingVal s2 ei pe v
                    stackPush v s3
                | _ =>
                  stackPush Obj.nil
                    { s with out := s.out ++ ["Can\x27t reset! binding \x27" ++ key ++ "\x27"] }
              | none =>
                stackPush Obj.nil
                  { s with out := s.out ++ ["Can\x27t reset! binding \x27" ++ key ++ "\x27"] }
            | _ => setErrorO "Must use \x27reset!\x27 on a symbol." rest.carD s
          else if n = "fn" then
            match rest with
            | Obj.cons params rest2 =>
              match rest2 with
              | Obj.cons body _ => stackPush (Obj.lambda params body envId) s
              | _ => setErrorO "No body in lambda: " o s
            | _ => setErrorO "No parameter list in lambda." o s
          else if n = "macro" then
            match rest with
            | Obj.cons params rest2 =>
              match rest2 with
              | Obj.cons body _ => stackPush (Obj.mac params body envId) s
              | _ => setErrorO "No body in macro: " o s
            | _ => setErrorO "No parameter list in macro: " o s
          else if n = "def" then
            match rest with
            | Obj.cons key rest2 =>
              match key with
              | Obj.sym _ =>
                let s1 := evalInternal fuel envId rest2.carD s
                if s1.error.isSome then s1
                else
                  let (v, s2) := stackPop s1
                  let s3 := globalEnvExtend key v s2
                  stackPush v s3
              | _ => setErrorO "Can\x27t assign to non-symbol: " o s
            | _ => setErrorO "Can\x27t assign to nil: " o s
          else if n = "def?" then
            match envLookupBindingLoc s envId rest.carD with
            | none => stackPush lisp_false s
            | some _ => stackPush lisp_true s
          else generalCall fuel envId o s
        | _ => generalCall fuel envId o s
      | _ => stackPush o s
termination_by structural fuel _ _ _ => fuel

/-- do: evaluate the forms in order, popping every result except the last; an
empty do pushes nothing. -/
def evalDo : Nat → Nat → Obj → IState → IState
  | 0, _, _, s => fuelOut s
  | fuel + 1, envId, p, s =>
    match p with
    | Obj.cons form rest =>
      let s1 := evalInternal fuel envId form s
      if s1.error.isSome then s1
      else
        match rest with
        | Obj.cons _ _ =>
          let (_, s2) := stackPop s1
          evalDo fuel envId rest s2
        | _ => s1
    | _ => s
termination_by structural fuel _ _ _ => fuel

/-- Binding loop of let: each binder must be a symbol; its value expression
(the car of the cdr, nil when the binder is the last element of the binding
list) is evaluated in the growing let environment and the popped result bound
there.  The source additionally latches an Uneven-forms error when the cdr of
the binder cell is a NULL pointer, which a reader-built cons never has (lists
end with the nil object), so that branch is unreachable and not modelled. -/
def evalLetBindings : Nat → Nat → Obj → IState → IState
  | 0, _, _, s => fuelOut s
  | fuel + 1, letEnv, p, s =>
    match p with
    | Obj.cons k rest =>
      match k with
      | Obj.sym _ =>
        let s1 := evalInternal fuel letEnv rest.carD s
        if s1.error.isSome then s1
        else
          let (v, s2) := stackPop s1
          let s3 := envExtend letEnv k v s2
          evalLetBindings fuel letEnv rest.cdrD s3
      | _ => setErrorO "Must bind to symbol in let form: " k s
    | _ => s
termination_by structural fuel _ _ _ => fuel

/-- not: short-circuits to false on the first truthy operand, pushing true
when none is. -/
def evalNot : Nat → Nat → Obj → IState → IState
  | 0, _, _, s => fuelOut s
  | fuel + 1, envId, p, s =>
    match p with
    | Obj.cons form rest =>
      let s1 := evalInternal fuel envId form s
      if s1.error.isSome then s1
      else
        let (v, s2) := stackPop s1
        if is_true v then stackPush lisp_false s2
        else evalNot fuel envId rest s2
    | _ => stackPush lisp_true s
termination_by structural fuel _ _ _ => fuel

/-- while loop entered with the condition value on the stack: pop it; while
truthy, evaluate the body, pop its value (a pop that is inert under a latched
error), re-evaluate the condition and return on error; a falsy condition
pushes nil. -/
def evalWhileLoop : Nat → Nat → Obj → Obj → IState → IState
  | 0, _, _, _, s => fuelOut s
  | fuel + 1, envId, condF, bodyF, s =>
    let (c, s1) := stackPop s
    if is_true c then
      let s2 := evalInternal fuel envId bodyF s1
      let (_, s3) := stackPop s2
      let s4 := evalInternal fuel envId condF s3
      if s4.error.isSome then s4
      else evalWhileLoop fuel envId condF bodyF s4
    else stackPush Obj.nil s1
termination_by structural fuel _ _ _ _ => fuel

/-- Clause loop of match: for each pattern, fork a fresh child environment
and attempt the match there; on success evaluate the form after the pattern
(nil when the pattern is the last clause element) in that environment; when
the clause list is exhausted latch the no-match error.  The Uneven-forms
check of the source compares the cdr of the pattern cell against a NULL
pointer that reader-built conses never carry, so it is unreachable and not
modelled. -/
def matchClauses : Nat → Nat → Obj → Obj → IState → IState
  | 0, _, _, _, s => fuelOut s
  | fuel + 1, envId, value, p, s =>
    match p with
    | Obj.cons pat rest =>
      let (newEnv, s1) := envNew envId s
      let (matched, s2) := objMatch fuel newEnv pat value s1
      if matched then evalInternal fuel newEnv rest.carD s2
      else matchClauses fuel envId value rest.cdrD s2
    | _ => setErrorO "Failed to find a suitable match for: " value s
termination_by structural fuel _ _ _ _ => fuel

/-- Argument loop of a general call: returns on a latched error; otherwise
pushes each argument form evaluated (normal call) or verbatim (macro call)
and counts the forms. -/
def evalArgs : Nat → Nat → Bool → Obj → IState → Nat × IState
  | 0, _, _, _, s => (0, fuelOut s)
  | fuel + 1, envId, evArgs, p, s =>
    match p with
    | Obj.cons form rest =>
      if s.error.isSome then (0, s)
      else
        let s1 := if evArgs then evalInternal fuel envId form s else stackPush form s
        let (c, s2) := evalArgs fuel envId evArgs rest s1
        (c + 1, s2)
    | _ => (0, s)
termination_by structural fuel _ _ _ _ => fuel

/-- General call: evaluate the head to the callable (the Cant-call-NULL
assert of the source is unreachable because stack_pop never yields a NULL
pointer); push the arguments, evaluated unless the callable is a macro; pop
them into an ordered array.  A macro gets a fresh child of its captured
environment extended with the unevaluated argument forms, its body is
evaluated there, and the popped expansion is evaluated in the calling
environment.  Any other callable is applied between a call-trace push and a
pop that happens only when no error was latched; trace overflow is fatal. -/
def generalCall : Nat → Nat → Obj → IState → IState
  | 0, _, _, s => fuelOut s
  | fuel + 1, envId, o, s =>
    let s1 := evalInternal fuel envId o.carD s
    if s1.error.isSome then s1
    else
      let (fn, s2) := stackPop s1
      let (count, s3) := evalArgs fuel envId (!fn.isMac) o.cdrD s2
      if s3.error.isSome then s3
      else
        let (argsL, s4) := popN count s3
        match fn with
        | Obj.mac params body cid =>
          let (ce, s5) := envNew cid s4
          let s6 := envExtendWithArgs ce params argsL s5
          let s7 := evalInternal fuel ce body s6
          if s7.error.isSome then s7
          else
            let (expanded, s8) := stackPop s7
            evalInternal fuel envId expanded s8
        | _ =>
          if STACK_SIZE - 1 < s4.funcTracePos then { s4 with crashed := true }
          else
            let s5 := { s4 with funcTracePos := s4.funcTracePos + 1 }
            let s6 := applyF fuel fn argsL s5
            if s6.error.isSome then s6
            else { s6 with funcTracePos := s6.funcTracePos - 1 }
termination_by structural fuel _ _ _ => fuel

/-- apply: a lambda body runs in a fresh child of the captured environment
extended with the argument bindings; a primop pushes its native result; a
foreign value without a native pointer latches the stub error, otherwise the
arguments are marshalled against the type list (too many when the types run
out, too few when types remain) and the default-valued native result is
unmarshalled by return type; a keyword looks itself up in its single
dictionary argument; anything else cannot be called. -/
def applyF : Nat → Obj → List Obj → IState → IState
  | 0, _, _, s => fuelOut s
  | fuel + 1, fn, argsL, s =>
    match fn with
    | Obj.lambda params body cid =>
      let (ce, s1) := envNew cid s
      let s2 := envExtendWithArgs ce params argsL s1
      evalInternal fuel ce body s2
    | Obj.prim name => stackPush (applyPrim name argsL) s
    | Obj.foreign hasPtr argTypes retType =>
      if !hasPtr then
        { s with error := some (Obj.str "Can\x27t call foregin function, it\x27s funptr is NULL. May be a stub function with just a signature?") }
      else
        let (pLeft, s1) := foreignCheckArgs fn argsL argTypes s
        if s1.error.isSome then s1
        else
          match pLeft with
          | Obj.cons _ _ => setErrorO "Too few arguments to " fn s1
          | _ =>
            match ffiDefaultResult retType with
            | some r => stackPush r s1
            | none => setErrorO "Returning what? " retType s1
    | Obj.keyword _ =>
      match argsL with
      | [a] =>
        match a with
        | Obj.envRef dictId =>
          match envLookup s dictId fn with
          | some v => stackPush v s
          | none => { s with error := some (Obj.str "Failed to lookup keyword \x27") }
        | _ => { s with error := some (Obj.str "Arg 0 to keyword lookup must be a dictionary: ") }
      | _ => { s with error := some (Obj.str "Args to keyword lookup must be a single arg.") }
    | _ => setErrorO "Can\x27t call non-function: " fn s
termination_by structural fuel _ _ _ => fuel

end

/-- eval, the top-level driver: resets the latched error, the stack pointer
and the trace pointer, evaluates the form, and returns the single popped
result with the final state.  A crashed process runs nothing. -/
def eval (fuel envId : Nat) (form : Obj) (s : IState) : Obj × IState :=
  if s.crashed then (Obj.nil, s)
  else
    let s0 := { s with error := none, stack := [], funcTracePos := 0 }
    let s1 := evalInternal fuel envId form s0
    stackPop s1

/-- Concrete start state used by the concrete scenarios: a global environment
(index 0) holding the list primitive, and an empty user environment (index 1)
whose parent is the global one. -/
def startState : IState :=
  { stack := [], error := none, funcTracePos := 0,
    envs := [⟨none, [(Obj.sym "list", Obj.prim "list")]⟩, ⟨some 0, []⟩],
    globalId := 0, out := [], crashed := false }

end Carp

namespace Carp
/-! ## Stack discipline: the balance invariant behind the driver contract -/


/-- A run is ok when the process has not aborted and no error is latched. -/
def okS (s : IState) : Prop := s.crashed = false ∧ s.error = none

/-- Frame base k st: the stack st consists of at most k new values on top of
a left-shortened copy of base (the shape every evaluator step preserves). -/
def Frame (base : List Obj) (k : Nat) (st : List Obj) : Prop :=
  ∃ vs d, st = vs ++ base.drop d ∧ vs.length ≤ k

/-- The state t has the same stack, error cell and crashed flag as s (the
environment heap and the output may differ). -/
def sameCore (s t : IState) : Prop :=
  t.stack = s.stack ∧ t.error = s.error ∧ t.crashed = s.crashed

/-- Balance statement for eval_internal at a given fuel: an ok run leaves at
most one new value over a left-shortened original stack, and started ok. -/
def PInt (fuel : Nat) : Prop :=
  ∀ envId o s res, evalInternal fuel envId o s = res → okS res →
    okS s ∧ Frame s.stack 1 res.stack

/-- Balance statement for the environment-literal pair loop. -/
def PDict (fuel : Nat) : Prop :=
  ∀ envId pairs s res2, evalDictPairs fuel envId pairs s = res2 → okS res2.2 →
    okS s ∧ Frame s.stack 0 res2.2.stack

/-- Balance statement for eval_list. -/
def PList (fuel : Nat) : Prop :=
  ∀ envId o s res, evalList fuel envId o s = res → okS res →
    okS s ∧ Frame s.stack 1 res.stack

/-- Balance statement for the do loop. -/
def PDo (fuel : Nat) : Prop :=
  ∀ envId p s res, evalDo fuel envId p s = res → okS res →
    okS s ∧ Frame s.stack 1 res.stack

/-- Balance statement for the let binding loop. -/
def PLet (fuel : Nat) : Prop :=
  ∀ letEnv p s res, evalLetBindings fuel letEnv p s = res → okS res →
    okS s ∧ Frame s.stack 0 res.stack

/-- Balance statement for the not loop. -/
def PNot (fuel : Nat) : Prop :=
  ∀ envId p s res, evalNot fuel envId p s = res → okS res →
    okS s ∧ Frame s.stack 1 res.stack

/-- Balance statement for the while loop (entered with the condition value on
top, which it always consumes). -/
def PWhile (fuel : Nat) : Prop :=
  ∀ envId c b s res, evalWhileLoop fuel envId c b s = res → okS res →
    okS s ∧ Frame (s.stack.drop 1) 1 res.stack

/-- Balance statement for the match clause loop. -/
def PMatch (fuel : Nat) : Prop :=
  ∀ envId v p s res, matchClauses fuel envId v p s = res → okS res →
    okS s ∧ Frame s.stack 1 res.stack

/-- Balance statement for the argument loop: at most count new values. -/
def PArgs (fuel : Nat) : Prop :=
  ∀ envId ev p s res2, evalArgs fuel envId ev p s = res2 → okS res2.2 →
    okS s ∧ Frame s.stack res2.1 res2.2.stack

/-- Balance statement for a general call. -/
def PGen (fuel : Nat) : Prop :=
  ∀ envId o s res, generalCall fuel envId o s = res → okS res →
    okS s ∧ Frame s.stack 1 res.stack

/-- Balance statement for the applicator. -/
def PApply (fuel : Nat) : Prop :=
  ∀ fn args s res, applyF fuel fn args s = res → okS res →
    okS s ∧ Frame s.stack 1 res.stack

end Carp

namespace Carp

theorem frame_self (base : List Obj) (k : Nat) : Frame base k base :=
  ⟨[], 0, by simp, by simp⟩

theorem frame_mono {base : List Obj} {k k2 : Nat} {st : List Obj}
    (h : Frame base k st) (hk : k ≤ k2) : Frame base k2 st := by
  obtain ⟨vs, d, h1, h2⟩ := h
  exact ⟨vs, d, h1, le_trans h2 hk⟩

theorem frame_push {base : List Obj} {k : Nat} {st : List Obj} (o : Obj)
    (h : Frame base k st) : Frame base (k + 1) (o :: st) := by
  obtain ⟨vs, d, h1, h2⟩ := h
  exact ⟨o :: vs, d, by simp [h1], by simp; omega⟩

theorem frame_pop {base : List Obj} {k : Nat} {v : Obj} {rest : List Obj}
    (h : Frame base k (v :: rest)) : Frame base (k - 1) rest := by
  obtain ⟨vs, d, h1, h2⟩ := h
  match vs, h1 with
  | [], h1 =>
    simp only [List.nil_append] at h1
    have h4 := congrArg (List.drop 1) h1
    simp only [List.drop_drop, List.drop_succ_cons, List.drop_zero] at h4
    refine ⟨[], d + 1, by simp [h4], by simp⟩
  | w :: vs2, h1 =>
    simp only [List.cons_append, List.cons.injEq] at h1
    refine ⟨vs2, d, h1.2, ?_⟩
    simp only [List.length_cons] at h2
    omega

theorem frame_dropOne {base : List Obj} {k : Nat} {st : List Obj}
    (h : Frame base (k + 1) st) : Frame base k (st.drop 1) := by
  obtain ⟨vs, d, h1, h2⟩ := h
  match vs, h1 with
  | [], h1 =>
    simp only [List.nil_append] at h1
    refine ⟨[], d + 1, ?_, by simp⟩
    simp [h1, List.drop_drop]
  | w :: vs2, h1 =>
    refine ⟨vs2, d, by simp [h1], ?_⟩
    simp only [List.length_cons] at h2
    omega

theorem frame_comp {b m st : List Obj} {k1 k2 : Nat}
    (h1 : Frame b k1 m) (h2 : Frame m k2 st) : Frame b (k2 + k1) st := by
  obtain ⟨vs1, d1, e1, l1⟩ := h1
  obtain ⟨vs2, d2, e2, l2⟩ := h2
  refine ⟨vs2 ++ vs1.drop d2, d1 + (d2 - vs1.length), ?_, ?_⟩
  · rw [e2, e1, List.drop_append_eq_append_drop, List.drop_drop, List.append_assoc,
      Nat.add_comm d1]
  · simp only [List.length_append]
    have := List.length_drop d2 vs1
    omega

theorem frame_dropK {base : List Obj} {k : Nat} {st : List Obj}
    (h : Frame base k st) (n : Nat) (hn : k ≤ n) : Frame base 0 (st.drop n) := by
  obtain ⟨vs, d, e, l⟩ := h
  refine ⟨[], d + (n - vs.length), ?_, by simp⟩
  rw [e, List.drop_append_eq_append_drop, List.drop_drop]
  have : vs.drop n = [] := List.drop_eq_nil_of_le (by omega)
  rw [this, Nat.add_comm d]

/-- Ok after a push means the push really happened on a live, roomy stack. -/
theorem okS_stackPush {o : Obj} {s : IState} (h : okS (stackPush o s)) :
    okS s ∧ stackPush o s = { s with stack := o :: s.stack } := by
  by_cases hcr : s.crashed
  · exfalso
    have : stackPush o s = s := by simp [stackPush, hcr]
    rw [this] at h
    exact absurd h.1 (by simp [hcr])
  · by_cases hfull : STACK_SIZE ≤ s.stack.length
    · exfalso
      have : stackPush o s = { s with crashed := true } := by simp [stackPush, hcr, hfull]
      rw [this] at h
      simpa using h.1
    · have hp : stackPush o s = { s with stack := o :: s.stack } := by
        simp [stackPush, hcr, hfull]
      rw [hp] at h
      exact ⟨⟨h.1, h.2⟩, hp⟩

/-- Ok after a pop means the state was ok, the stack was non-empty, and a
genuine pop happened. -/
theorem okS_stackPop {s : IState} (h : okS (stackPop s).2) :
    okS s ∧ ∃ v rest, s.stack = v :: rest ∧ stackPop s = (v, { s with stack := rest }) := by
  by_cases hcr : s.crashed
  · exfalso
    have : stackPop s = (Obj.nil, s) := by simp [stackPop, hcr]
    rw [this] at h
    exact absurd h.1 (by simp [hcr])
  · by_cases herr : s.error.isSome
    · exfalso
      have : stackPop s = (Obj.nil, s) := by simp [stackPop, hcr, herr]
      rw [this] at h
      rw [h.2] at herr
      simp at herr
    · match hst : s.stack with
      | [] =>
        exfalso
        have : stackPop s = (Obj.nil, { s with crashed := true }) := by
          simp [stackPop, hcr, herr, hst]
        rw [this] at h
        simpa using h.1
      | v :: rest =>
        have hp : stackPop s = (v, { s with stack := rest }) := by
          simp [stackPop, hcr, herr, hst]
        rw [hp] at h
        exact ⟨⟨h.1, h.2⟩, v, rest, rfl, hp⟩

/-- Ok after popping n values means the state was ok, the stack held at least
n values, and they were dropped. -/
theorem okS_popN {n : Nat} : ∀ {s : IState}, okS (popN n s).2 →
    okS s ∧ (popN n s).2 = { s with stack := s.stack.drop n } ∧ n ≤ s.stack.length := by
  induction n with
  | zero =>
    intro s h
    have : (popN 0 s).2 = s := rfl
    rw [this] at h
    exact ⟨h, by cases s; simp [popN], by omega⟩
  | succ n ih =>
    intro s h
    have hshape : popN (n + 1) s
        = ((popN n (stackPop s).2).1 ++ [(stackPop s).1], (popN n (stackPop s).2).2) := rfl
    have h2 : okS (popN n (stackPop s).2).2 := by
      rw [hshape] at h; exact h
    obtain ⟨hok1, heq, hlen⟩ := ih h2
    obtain ⟨hok0, v, rest, hst, hp⟩ := okS_stackPop hok1
    rw [hp] at heq hlen
    refine ⟨hok0, ?_, ?_⟩
    · rw [hshape]
      simp only [hp, heq]
      simp [hst]
    · simp only at hlen
      rw [hst]
      simp only [List.length_cons]
      omega



/-! ## Support lemmas for the stack-discipline induction -/

/-- Fuel exhaustion is never ok (it latches the artefact error). -/
theorem okS_fuelOut (s : IState) : ¬ okS (fuelOut s) := by
  simp [okS, fuelOut]

/-- An ok push framed over the original stack. -/
theorem frame_stackPush {o : Obj} {s : IState} (h : okS (stackPush o s)) :
    Frame s.stack 1 (stackPush o s).stack := by
  obtain ⟨_, h2⟩ := okS_stackPush h
  rw [h2]
  exact frame_push _ (frame_self _ _)

/-- An ok pop lowers a frame by one slot. -/
theorem frame_stackPop {base : List Obj} {k : Nat} {s : IState}
    (h : okS (stackPop s).2) (hf : Frame base k s.stack) :
    Frame base (k - 1) ((stackPop s).2).stack := by
  obtain ⟨_, v, rest, hst, hp⟩ := okS_stackPop h
  rw [hp]
  rw [hst] at hf
  exact frame_pop hf

theorem sameCore_okS {s t : IState} (h : sameCore s t) : okS t ↔ okS s := by
  obtain ⟨h1, h2, h3⟩ := h
  unfold okS
  rw [h2, h3]

theorem sameCore_envNew (p : Nat) (s : IState) : sameCore s (envNew p s).2 :=
  ⟨rfl, rfl, rfl⟩

theorem sameCore_envExtend (i : Nat) (k v : Obj) (s : IState) :
    sameCore s (envExtend i k v s) := ⟨rfl, rfl, rfl⟩

theorem sameCore_globalEnvExtend (k v : Obj) (s : IState) :
    sameCore s (globalEnvExtend k v s) := ⟨rfl, rfl, rfl⟩

theorem sameCore_envSetBindingVal (s : IState) (i pe : Nat) (v : Obj) :
    sameCore s (envSetBindingVal s i pe v) := by
  rcases h : (getEnv s i).bindings.get? ((getEnv s i).bindings.length - 1 - pe) with _ | ⟨k, v2⟩
  · simp only [envSetBindingVal, h]
    exact ⟨rfl, rfl, rfl⟩
  · simp only [envSetBindingVal, h]
    exact ⟨rfl, rfl, rfl⟩

theorem sameCore_envExtendWithArgs (i : Nat) :
    ∀ (params : Obj) (args : List Obj) (s : IState),
    sameCore s (envExtendWithArgs i params args s) := by
  intro params
  induction params
  case cons car cdr ihcar ihcdr =>
    intro args s
    cases car
    case sym n =>
      simp only [envExtendWithArgs]
      split
      · exact ⟨rfl, rfl, rfl⟩
      · cases args with
        | nil => exact ⟨rfl, rfl, rfl⟩
        | cons a moreArgs => exact ihcdr moreArgs (envExtend i (Obj.sym n) a s)
    all_goals exact ⟨rfl, rfl, rfl⟩
  all_goals (intro args s; exact ⟨rfl, rfl, rfl⟩)

/-- The pattern matcher touches only the environment heap: stack and crashed
flag are preserved, and the error cell is preserved or set (fuel
artefact). -/
theorem objMatch_core : ∀ (fuel : Nat),
    (∀ envId a v s, ((objMatch fuel envId a v s).2).stack = s.stack
      ∧ ((objMatch fuel envId a v s).2).crashed = s.crashed
      ∧ (((objMatch fuel envId a v s).2).error = s.error
         ∨ ((objMatch fuel envId a v s).2).error.isSome = true))
    ∧ (∀ envId a v s, ((objMatchLists fuel envId a v s).2).stack = s.stack
      ∧ ((objMatchLists fuel envId a v s).2).crashed = s.crashed
      ∧ (((objMatchLists fuel envId a v s).2).error = s.error
         ∨ ((objMatchLists fuel envId a v s).2).error.isSome = true)) := by
  intro fuel
  induction fuel with
  | zero =>
    exact ⟨fun _ _ _ _ => ⟨rfl, rfl, Or.inr rfl⟩, fun _ _ _ _ => ⟨rfl, rfl, Or.inr rfl⟩⟩
  | succ fuel ih =>
    obtain ⟨ihM, ihL⟩ := ih
    constructor
    · intro envId a v s
      simp only [objMatch]
      split
      · exact ⟨rfl, rfl, Or.inl rfl⟩
      · split
        · exact ⟨rfl, rfl, Or.inl rfl⟩
        · split
          · exact ihL envId _ v s
          · exact ⟨rfl, rfl, Or.inl rfl⟩
    · intro envId a v s
      simp only [objMatchLists]
      split
      · split
        · exact ihM envId _ v s
        · split
          · rename_i v1 vd
            obtain ⟨m1, m2, m3⟩ := ihM envId _ v1 s
            split
            · obtain ⟨l1, l2, l3⟩ := ihL envId _ vd (objMatch fuel envId _ v1 s).2
              refine ⟨l1.trans m1, l2.trans m2, ?_⟩
              rcases l3 with l3 | l3
              · rw [l3]
                exact m3
              · exact Or.inr l3
            · exact ⟨m1, m2, m3⟩
          · exact ⟨rfl, rfl, Or.inl rfl⟩
      · split
        · exact ⟨rfl, rfl, Or.inl rfl⟩
        · exact ⟨rfl, rfl, Or.inl rfl⟩


/-- The marshalling walk touches neither the stack nor the crashed flag and
can only latch errors. -/
theorem foreignCheckArgs_core (f : Obj) : ∀ (args : List Obj) (p : Obj) (s : IState),
    ((foreignCheckArgs f args p s).2).stack = s.stack
    ∧ ((foreignCheckArgs f args p s).2).crashed = s.crashed
    ∧ (((foreignCheckArgs f args p s).2).error = s.error
       ∨ ((foreignCheckArgs f args p s).2).error.isSome = true) := by
  intro args
  induction args with
  | nil => intro p s; exact ⟨rfl, rfl, Or.inl rfl⟩
  | cons a rest ih =>
    intro p s
    simp only [foreignCheckArgs]
    split
    · split
      · split
        · exact ih _ _
        · exact ⟨rfl, rfl, Or.inr rfl⟩
      · split
        · split
          · exact ih _ _
          · exact ⟨rfl, rfl, Or.inr rfl⟩
        · split
          · split
            · exact ih _ _
            · exact ⟨rfl, rfl, Or.inr rfl⟩
          · split
            · split
              · exact ih _ _
              · exact ⟨rfl, rfl, Or.inr rfl⟩
            · exact ⟨rfl, rfl, Or.inr rfl⟩
    · exact ⟨rfl, rfl, Or.inr rfl⟩

/-- Pushing never changes the latched error cell (dev copy). -/
theorem stackPush_error2 (o : Obj) (s : IState) : (stackPush o s).error = s.error := by
  simp only [stackPush]
  split
  · rfl
  · split <;> rfl

/-- Step lemma for the do loop. -/
theorem step_do (fuel : Nat) (hInt : PInt fuel) (hDo : PDo fuel) : PDo (fuel + 1) := by
  intro envId p s res hres hok
  simp only [evalDo] at hres
  split at hres
  · rename_i form rest
    split at hres
    · rename_i herr
      subst hres
      rw [hok.2] at herr
      simp at herr
    · rename_i herr
      split at hres
      · obtain ⟨hok2, hfr3⟩ := hDo _ _ _ _ hres hok
        obtain ⟨hok1, v2, rest2, hst, hp⟩ := okS_stackPop hok2
        obtain ⟨hok0, hfr1⟩ := hInt _ _ _ _ rfl hok1
        refine ⟨hok0, ?_⟩
        rw [hst] at hfr1
        have hfr2 : Frame s.stack 0 ((stackPop (evalInternal fuel envId form s)).2).stack := by
          rw [hp]; exact frame_pop hfr1
        exact frame_comp hfr2 hfr3
      · subst hres
        exact hInt _ _ _ _ rfl hok
  · subst hres
    exact ⟨hok, frame_self _ _⟩



/-- Step lemma for eval_internal. -/
theorem step_int (fuel : Nat) (hDict : PDict fuel) (hList : PList fuel) :
    PInt (fuel + 1) := by
  intro envId o s res hres hok
  simp only [evalInternal] at hres
  split at hres
  · rename_i hcr
    subst hres
    exact absurd hok.1 (by simp [hcr])
  · split at hres
    · rename_i hcr herr
      subst hres
      rw [hok.2] at herr
      simp at herr
    · rename_i hcr herr
      split at hres
      · exact hList _ _ _ _ hres hok
      · exact hList _ _ _ _ hres hok
      · rename_i srcId
        rw [← hres] at hok
        obtain ⟨hok1, _⟩ := okS_stackPush hok
        have hok2 : okS (evalDictPairs fuel envId (getEnv s srcId).bindings
            { s with envs := s.envs
                ++ [⟨(getEnv s srcId).parent, (getEnv s srcId).bindings⟩] }).2 := hok1
        obtain ⟨hok3, hfr⟩ := hDict _ _ _ _ rfl hok2
        refine ⟨hok3, ?_⟩
        rw [← hres]
        have hfr2 : Frame s.stack 0 ((evalDictPairs fuel envId (getEnv s srcId).bindings
            { s with envs := s.envs
                ++ [⟨(getEnv s srcId).parent, (getEnv s srcId).bindings⟩] }).2).stack := hfr
        exact frame_comp hfr2 (frame_stackPush hok)
      · rename_i n
        split at hres
        · rw [← hres] at hok
          have h2 := hok.2
          rw [stackPush_error2] at h2
          simp at h2
        · rw [← hres] at hok
          refine ⟨(okS_stackPush hok).1, ?_⟩
          rw [← hres]
          exact frame_stackPush hok
      · rw [← hres] at hok
        refine ⟨(okS_stackPush hok).1, ?_⟩
        rw [← hres]
        exact frame_stackPush hok

/-- Step lemma for the environment-literal pair loop. -/
theorem step_dict (fuel : Nat) (hInt : PInt fuel) (hDict : PDict fuel) :
    PDict (fuel + 1) := by
  intro envId pairs s res2 hres hok
  cases pairs with
  | nil =>
    have he : evalDictPairs (fuel + 1) envId [] s = ([], s) := rfl
    rw [he] at hres
    subst hres
    exact ⟨hok, frame_self _ _⟩
  | cons kv rest =>
    obtain ⟨k, v⟩ := kv
    have he : evalDictPairs (fuel + 1) envId ((k, v) :: rest) s
        = ((k, (stackPop (evalInternal fuel envId v s)).1)
            :: (evalDictPairs fuel envId rest (stackPop (evalInternal fuel envId v s)).2).1,
           (evalDictPairs fuel envId rest (stackPop (evalInternal fuel envId v s)).2).2) := rfl
    rw [he] at hres
    rw [← hres] at hok
    have hok3 : okS (evalDictPairs fuel envId rest
        (stackPop (evalInternal fuel envId v s)).2).2 := hok
    obtain ⟨hok2, hfr3⟩ := hDict _ _ _ _ rfl hok3
    obtain ⟨hok1, v2, rest2, hst, hp⟩ := okS_stackPop hok2
    obtain ⟨hok0, hfr1⟩ := hInt _ _ _ _ rfl hok1
    refine ⟨hok0, ?_⟩
    rw [← hres]
    rw [hst] at hfr1
    have hfr2 : Frame s.stack 0 ((stackPop (evalInternal fuel envId v s)).2).stack := by
      rw [hp]; exact frame_pop hfr1
    exact frame_comp hfr2 hfr3

/-- Step lemma for the let binding loop. -/
theorem step_let (fuel : Nat) (hInt : PInt fuel) (hLet : PLet fuel) :
    PLet (fuel + 1) := by
  intro letEnv p s res hres hok
  simp only [evalLetBindings] at hres
  split at hres
  · rename_i k rest
    split at hres
    · rename_i n
      split at hres
      · rename_i herr
        subst hres
        rw [hok.2] at herr
        simp at herr
      · rename_i herr
        obtain ⟨hok3, hfr3⟩ := hLet _ _ _ _ hres hok
        have hok2 : okS (stackPop (evalInternal fuel letEnv rest.carD s)).2 := hok3
        obtain ⟨hok1, v2, rest2, hst, hp⟩ := okS_stackPop hok2
        obtain ⟨hok0, hfr1⟩ := hInt _ _ _ _ rfl hok1
        refine ⟨hok0, ?_⟩
        rw [hst] at hfr1
        have hfr2 : Frame s.stack 0 ((stackPop (evalInternal fuel letEnv rest.carD s)).2).stack := by
          rw [hp]; exact frame_pop hfr1
        have hfr2b : Frame s.stack 0 (envExtend letEnv (Obj.sym n)
            (stackPop (evalInternal fuel letEnv rest.carD s)).1
            (stackPop (evalInternal fuel letEnv rest.carD s)).2).stack := hfr2
        exact frame_comp hfr2b hfr3
    · rw [← hres] at hok
      have h2 := hok.2
      simp [setErrorO] at h2
  · subst hres
    exact ⟨hok, frame_self _ _⟩

/-- Step lemma for the not loop. -/
theorem step_not (fuel : Nat) (hInt : PInt fuel) (hNot : PNot fuel) :
    PNot (fuel + 1) := by
  intro envId p s res hres hok
  simp only [evalNot] at hres
  split at hres
  · rename_i form rest
    split at hres
    · rename_i herr
      subst hres
      rw [hok.2] at herr
      simp at herr
    · rename_i herr
      split at hres
      · rw [← hres] at hok
        obtain ⟨hok2, _⟩ := okS_stackPush hok
        obtain ⟨hok1, v2, rest2, hst, hp⟩ := okS_stackPop hok2
        obtain ⟨hok0, hfr1⟩ := hInt _ _ _ _ rfl hok1
        refine ⟨hok0, ?_⟩
        rw [← hres]
        rw [hst] at hfr1
        have hfr2 : Frame s.stack 0 ((stackPop (evalInternal fuel envId form s)).2).stack := by
          rw [hp]; exact frame_pop hfr1
        exact frame_comp hfr2 (frame_stackPush hok)
      · obtain ⟨hok2, hfr3⟩ := hNot _ _ _ _ hres hok
        obtain ⟨hok1, v2, rest2, hst, hp⟩ := okS_stackPop hok2
        obtain ⟨hok0, hfr1⟩ := hInt _ _ _ _ rfl hok1
        refine ⟨hok0, ?_⟩
        rw [hst] at hfr1
        have hfr2 : Frame s.stack 0 ((stackPop (evalInternal fuel envId form s)).2).stack := by
          rw [hp]; exact frame_pop hfr1
        exact frame_comp hfr2 hfr3
  · rw [← hres] at hok
    refine ⟨(okS_stackPush hok).1, ?_⟩
    rw [← hres]
    exact frame_stackPush hok



/-- Step lemma for the while loop. -/
theorem step_while (fuel : Nat) (hInt : PInt fuel) (hWhile : PWhile fuel) :
    PWhile (fuel + 1) := by
  intro envId c b s res hres hok
  simp only [evalWhileLoop] at hres
  split at hres
  · split at hres
    · rename_i herr
      subst hres
      rw [hok.2] at herr
      simp at herr
    · rename_i htrue herr
      obtain ⟨hok4, hfrW⟩ := hWhile _ _ _ _ _ hres hok
      obtain ⟨hok3, hfr4⟩ := hInt _ _ _ _ rfl hok4
      obtain ⟨hok2, v3, r3, hst3, hp3⟩ := okS_stackPop hok3
      obtain ⟨hok1, hfr2⟩ := hInt _ _ _ _ rfl hok2
      obtain ⟨hok0, v1, r1, hst1, hp1⟩ := okS_stackPop hok1
      refine ⟨hok0, ?_⟩
      rw [hst1]
      simp only [List.drop_succ_cons, List.drop_zero]
      have hstk1 : ((stackPop s).2).stack = r1 := by rw [hp1]
      rw [hstk1] at hfr2
      rw [hst3] at hfr2
      have hfr3 : Frame r1 0 r3 := frame_pop hfr2
      have hstk3 : ((stackPop (evalInternal fuel envId b ((stackPop s).2))).2).stack = r3 := by
        rw [hp3]
      rw [hstk3] at hfr4
      have hfr4b : Frame r1 1 (evalInternal fuel envId c
          ((stackPop (evalInternal fuel envId b ((stackPop s).2))).2)).stack :=
        frame_comp hfr3 hfr4
      have hfr5 := frame_dropOne hfr4b
      exact frame_comp hfr5 hfrW
  · rw [← hres] at hok
    obtain ⟨hok1, _⟩ := okS_stackPush hok
    obtain ⟨hok0, v1, r1, hst1, hp1⟩ := okS_stackPop hok1
    refine ⟨hok0, ?_⟩
    rw [← hres, hst1]
    simp only [List.drop_succ_cons, List.drop_zero]
    have hb := frame_stackPush hok
    have hstk1 : ((stackPop s).2).stack = r1 := by rw [hp1]
    rw [hstk1] at hb
    exact hb

/-- Step lemma for the match clause loop. -/
theorem step_match (fuel : Nat) (hInt : PInt fuel) (hMatch : PMatch fuel) :
    PMatch (fuel + 1) := by
  intro envId v p s res hres hok
  simp only [matchClauses] at hres
  split at hres
  · rename_i pat rest
    have hcore := (objMatch_core fuel).1 (envNew envId s).1 pat v (envNew envId s).2
    obtain ⟨hcStack, hcCrash, hcErr⟩ := hcore
    split at hres
    · obtain ⟨hok2, hfr2⟩ := hInt _ _ _ _ hres hok
      have hokM : okS (envNew envId s).2 := by
        constructor
        · rw [← hcCrash]; exact hok2.1
        · rcases hcErr with h | h
          · rw [← h]; exact hok2.2
          · rw [hok2.2] at h; simp at h
      refine ⟨hokM, ?_⟩
      rw [hcStack] at hfr2
      exact hfr2
    · obtain ⟨hok2, hfr2⟩ := hMatch _ _ _ _ _ hres hok
      have hokM : okS (envNew envId s).2 := by
        constructor
        · rw [← hcCrash]; exact hok2.1
        · rcases hcErr with h | h
          · rw [← h]; exact hok2.2
          · rw [hok2.2] at h; simp at h
      refine ⟨hokM, ?_⟩
      rw [hcStack] at hfr2
      exact hfr2
  · rw [← hres] at hok
    have h2 := hok.2
    simp [setErrorO] at h2

/-- Step lemma for the argument loop. -/
theorem step_args (fuel : Nat) (hInt : PInt fuel) (hArgs : PArgs fuel) :
    PArgs (fuel + 1) := by
  intro envId ev p s res2 hres hok
  simp only [evalArgs] at hres
  split at hres
  · rename_i form rest
    split at hres
    · rename_i herr
      subst hres
      refine ⟨⟨hok.1, hok.2⟩, frame_self _ _⟩
    · rename_i herr
      cases ev with
      | true =>
        rw [← hres] at hok
        have hok3 : okS (evalArgs fuel envId true rest (evalInternal fuel envId form s)).2 := hok
        obtain ⟨hok1, hfr2⟩ := hArgs _ _ _ _ _ rfl hok3
        obtain ⟨hok0, hfr1⟩ := hInt _ _ _ _ rfl hok1
        refine ⟨hok0, ?_⟩
        rw [← hres]
        exact frame_comp hfr1 hfr2
      | false =>
        rw [← hres] at hok
        have hok3 : okS (evalArgs fuel envId false rest (stackPush form s)).2 := hok
        obtain ⟨hok1, hfr2⟩ := hArgs _ _ _ _ _ rfl hok3
        obtain ⟨hok0, _⟩ := okS_stackPush hok1
        refine ⟨hok0, ?_⟩
        rw [← hres]
        exact frame_comp (frame_stackPush hok1) hfr2
  · subst hres
    exact ⟨hok, frame_self _ _⟩



/-- Step lemma for the applicator. -/
theorem step_apply (fuel : Nat) (hInt : PInt fuel) : PApply (fuel + 1) := by
  intro fn args s res hres hok
  simp only [applyF] at hres
  split at hres
  · -- lambda
    rename_i params body cid
    obtain ⟨hok2, hfr2⟩ := hInt _ _ _ _ hres hok
    have hok1 : okS (envNew cid s).2 :=
      (sameCore_okS (sameCore_envExtendWithArgs (envNew cid s).1 params args
        (envNew cid s).2)).mp hok2
    refine ⟨hok1, ?_⟩
    have hse := (sameCore_envExtendWithArgs (envNew cid s).1 params args (envNew cid s).2).1
    rw [hse] at hfr2
    exact hfr2
  · -- primop
    rw [← hres] at hok
    refine ⟨(okS_stackPush hok).1, ?_⟩
    rw [← hres]
    exact frame_stackPush hok
  · -- foreign
    rename_i hasPtr argTypes retType
    split at hres
    · rw [← hres] at hok
      have h2 := hok.2
      simp at h2
    · rename_i hptr
      split at hres
      · rename_i herr
        subst hres
        rw [hok.2] at herr
        simp at herr
      · rename_i herr
        split at hres
        · rw [← hres] at hok
          have h2 := hok.2
          simp [setErrorO] at h2
        · split at hres
          · -- default result pushed
            rw [← hres] at hok
            obtain ⟨hokF, _⟩ := okS_stackPush hok
            obtain ⟨hcS, hcC, hcE⟩ := foreignCheckArgs_core
              (Obj.foreign hasPtr argTypes retType) args argTypes s
            have hok0 : okS s := by
              constructor
              · rw [← hcC]; exact hokF.1
              · rcases hcE with h | h
                · rw [← h]; exact hokF.2
                · rw [hokF.2] at h; simp at h
            refine ⟨hok0, ?_⟩
            rw [← hres]
            have hb := frame_stackPush hok
            rw [hcS] at hb
            exact hb
          · rw [← hres] at hok
            have h2 := hok.2
            simp [setErrorO] at h2
  · -- keyword
    split at hres
    · split at hres
      · split at hres
        · rw [← hres] at hok
          refine ⟨(okS_stackPush hok).1, ?_⟩
          rw [← hres]
          exact frame_stackPush hok
        · rw [← hres] at hok
          have h2 := hok.2
          simp at h2
      · rw [← hres] at hok
        have h2 := hok.2
        simp at h2
    · rw [← hres] at hok
      have h2 := hok.2
      simp at h2
  · -- non-function
    rw [← hres] at hok
    have h2 := hok.2
    simp [setErrorO] at h2



/-- Step lemma for a general call. -/
theorem step_gen (fuel : Nat) (hInt : PInt fuel) (hArgs : PArgs fuel)
    (hApply : PApply fuel) : PGen (fuel + 1) := by
  intro envId o s res hres hok
  simp only [generalCall] at hres
  split at hres
  · rename_i herr
    subst hres; rw [hok.2] at herr; simp at herr
  · rename_i herr1
    split at hres
    · rename_i herr3
      subst hres; rw [hok.2] at herr3; simp at herr3
    · rename_i herr3
      set S1 := evalInternal fuel envId o.carD s with hS1
      set S2 := (stackPop S1).2 with hS2
      set AR := evalArgs fuel envId (!(stackPop S1).1.isMac) o.cdrD S2 with hAR
      set S3 := AR.2 with hS3
      split at hres
      · -- macro arm
        rename_i mparams mbody mcid hfnEq
        set CE := (envNew mcid (popN AR.1 S3).2).1 with hCE
        set S5 := (envNew mcid (popN AR.1 S3).2).2 with hS5
        set S6 := envExtendWithArgs CE mparams (popN AR.1 S3).1 S5 with hS6
        set S7 := evalInternal fuel CE mbody S6 with hS7
        split at hres
        · rename_i herr7
          subst hres; rw [hok.2] at herr7; simp at herr7
        · rename_i herr7
          set S8 := (stackPop S7).2 with hS8
          obtain ⟨hok8, hfrE⟩ := hInt _ _ _ _ hres hok
          rw [hS8] at hok8
          obtain ⟨hok7, v7, r7, hst7, hp7⟩ := okS_stackPop hok8
          obtain ⟨hok6, hfr7⟩ := hInt _ _ _ _ hS7.symm hok7
          have hsc : sameCore S5 S6 := by
            rw [hS6]; exact sameCore_envExtendWithArgs _ _ _ _
          have hok5 : okS S5 := (sameCore_okS hsc).mp hok6
          have hok4 : okS (popN AR.1 S3).2 := by
            rw [hS5] at hok5
            exact hok5
          obtain ⟨hok3, hpopN, hlen⟩ := okS_popN hok4
          rw [hS3] at hok3
          obtain ⟨hok2, hfrA⟩ := hArgs _ _ _ _ _ hAR.symm hok3
          rw [hS2] at hok2
          obtain ⟨hok1, vf, r1, hst1, hp1⟩ := okS_stackPop hok2
          obtain ⟨hok0, hfr1⟩ := hInt _ _ _ _ hS1.symm hok1
          refine ⟨hok0, ?_⟩
          rw [hst1] at hfr1
          have hfrP : Frame s.stack 0 r1 := frame_pop hfr1
          have hstk2 : S2.stack = r1 := by rw [hS2, hp1]
          rw [← hstk2] at hfrP
          have hfrS3 : Frame s.stack AR.1 S3.stack := by
            rw [hS3]; exact frame_comp hfrP hfrA
          have hfr4 : Frame s.stack 0 ((popN AR.1 S3).2).stack := by
            rw [hpopN]
            exact frame_dropK hfrS3 AR.1 (le_refl _)
          have hfr6 : Frame s.stack 0 S6.stack := by
            rw [hsc.1, hS5]
            exact hfr4
          have hfr7b := frame_comp hfr6 hfr7
          rw [hst7] at hfr7b
          have hfr8 : Frame s.stack 0 S8.stack := by
            rw [hS8, hp7]
            exact frame_pop hfr7b
          exact frame_comp hfr8 hfrE
      · -- ordinary application arm
        split at hres
        · rw [← hres] at hok
          have h1 := hok.1
          simp at h1
        · rename_i htr
          set S4 := (popN AR.1 S3).2 with hS4
          set S5 := { S4 with funcTracePos := S4.funcTracePos + 1 } with hS5
          set S6 := applyF fuel (stackPop S1).1 (popN AR.1 S3).1 S5 with hS6
          split at hres
          · rename_i herr6
            subst hres; rw [hok.2] at herr6; simp at herr6
          · rename_i herr6
            rw [← hres] at hok
            have hok6 : okS S6 := ⟨hok.1, hok.2⟩
            obtain ⟨hok5, hfrA2⟩ := hApply _ _ _ _ hS6.symm hok6
            have hok4 : okS S4 := ⟨hok5.1, hok5.2⟩
            rw [hS4] at hok4
            obtain ⟨hok3, hpopN, hlen⟩ := okS_popN hok4
            rw [hS3] at hok3
            obtain ⟨hok2, hfrA⟩ := hArgs _ _ _ _ _ hAR.symm hok3
            rw [hS2] at hok2
            obtain ⟨hok1, vf, r1, hst1, hp1⟩ := okS_stackPop hok2
            obtain ⟨hok0, hfr1⟩ := hInt _ _ _ _ hS1.symm hok1
            refine ⟨hok0, ?_⟩
            rw [← hres]
            rw [hst1] at hfr1
            have hfrP : Frame s.stack 0 r1 := frame_pop hfr1
            have hstk2 : S2.stack = r1 := by rw [hS2, hp1]
            rw [← hstk2] at hfrP
            have hfrS3 : Frame s.stack AR.1 S3.stack := by
              rw [hS3]; exact frame_comp hfrP hfrA
            have hfr4 : Frame s.stack 0 S4.stack := by
              rw [hS4, hpopN]
              exact frame_dropK hfrS3 AR.1 (le_refl _)
            have hfr5 : Frame s.stack 0 S5.stack := by
              rw [hS5]
              exact hfr4
            have hfr6 : Frame s.stack 1 S6.stack := frame_comp hfr5 hfrA2
            exact hfr6



/-- One-step unfolding of eval_list on a non-list object: it is pushed. -/
theorem evalList_other (fuel envId : Nat) (o : Obj) (s : IState)
    (hno : o.isConsB = false) :
    evalList (fuel + 1) envId o s = if s.crashed = true then s else stackPush o s := by
  cases o
  case cons a b => simp [Obj.isConsB] at hno
  all_goals rfl

/-- One-step unfolding of eval_list on a cons whose head is not a symbol: a
general call. -/
theorem evalList_callHead (fuel envId : Nat) (head rest : Obj) (s : IState)
    (hns : ∀ nm, head ≠ Obj.sym nm) :
    evalList (fuel + 1) envId (Obj.cons head rest) s
      = if s.crashed = true then s
        else generalCall fuel envId (Obj.cons head rest) s := by
  cases head
  case sym nm => exact absurd rfl (hns nm)
  all_goals rfl

/-- One-step unfolding of eval_list on a cons with a symbol head: the special
form dispatch in source order, with intermediate states written as explicit
projections. -/
theorem evalList_symHead (fuel envId : Nat) (n : String) (rest : Obj) (s : IState) :
    evalList (fuel + 1) envId (Obj.cons (Obj.sym n) rest) s
      = (if s.crashed = true then s
         else if n = "do" then evalDo fuel envId rest s
         else if n = "let" then
           match rest with
           | Obj.cons bindings rest2 =>
             if (evalLetBindings fuel (envNew envId s).1 bindings
                   (envNew envId s).2).error.isSome then
               evalLetBindings fuel (envNew envId s).1 bindings (envNew envId s).2
             else
               match rest2 with
               | Obj.cons body _ =>
                 evalInternal fuel (envNew envId s).1 body
                   (evalLetBindings fuel (envNew envId s).1 bindings (envNew envId s).2)
               | _ =>
                 setErrorO "No body in \x27let\x27 form." (Obj.cons (Obj.sym n) rest)
                   (evalLetBindings fuel (envNew envId s).1 bindings (envNew envId s).2)
           | _ =>
             setErrorO "No bindings in \x27let\x27 form." (Obj.cons (Obj.sym n) rest)
               (envNew envId s).2
         else if n = "not" then evalNot fuel envId rest s
         else if n = "quote" then
           match rest with
           | Obj.nil => stackPush Obj.nil s
           | _ => stackPush rest.carD s
         else if n = "while" then
           if (evalInternal fuel envId rest.carD s).error.isSome then
             evalInternal fuel envId rest.carD s
           else
             evalWhileLoop fuel envId rest.carD rest.cdrD.carD
               (evalInternal fuel envId rest.carD s)
         else if n = "if" then
           if (evalInternal fuel envId rest.carD s).error.isSome then
             evalInternal fuel envId rest.carD s
           else
             if is_true (stackPop (evalInternal fuel envId rest.carD s)).1 then
               evalInternal fuel envId rest.cdrD.carD
                 (stackPop (evalInternal fuel envId rest.carD s)).2
             else
               evalInternal fuel envId rest.cdrD.cdrD.carD
                 (stackPop (evalInternal fuel envId rest.carD s)).2
         else if n = "match" then
           if (evalInternal fuel envId rest.carD s).error.isSome then
             evalInternal fuel envId rest.carD s
           else
             matchClauses fuel envId (stackPop (evalInternal fuel envId rest.carD s)).1
               rest.cdrD (stackPop (evalInternal fuel envId rest.carD s)).2
         else if n = "reset!" then
           match rest.carD with
           | Obj.sym key =>
             match envLookupBindingLoc s envId (Obj.sym key) with
             | some (ei, pe) =>
               match envGetBinding s ei pe with
               | some (Obj.sym _, _) =>
                 if (evalInternal fuel envId rest.cdrD.carD s).error.isSome then
                   evalInternal fuel envId rest.cdrD.carD s
                 else
                   stackPush (stackPop (evalInternal fuel envId rest.cdrD.carD s)).1
                     (envSetBindingVal
                       (stackPop (evalInternal fuel envId rest.cdrD.carD s)).2 ei pe
                       (stackPop (evalInternal fuel envId rest.cdrD.carD s)).1)
               | _ =>
                 stackPush Obj.nil
                   { s with out := s.out ++ ["Can\x27t reset! binding \x27" ++ key ++ "\x27"] }
             | none =>
               stackPush Obj.nil
                 { s with out := s.out ++ ["Can\x27t reset! binding \x27" ++ key ++ "\x27"] }
           | _ => setErrorO "Must use \x27reset!\x27 on a symbol." rest.carD s
         else if n = "fn" then
           match rest with
           | Obj.cons params rest2 =>
             match rest2 with
             | Obj.cons body _ => stackPush (Obj.lambda params body envId) s
             | _ => setErrorO "No body in lambda: " (Obj.cons (Obj.sym n) rest) s
           | _ => setErrorO "No parameter list in lambda." (Obj.cons (Obj.sym n) rest) s
         else if n = "macro" then
           match rest with
           | Obj.cons params rest2 =>
             match rest2 with
             | Obj.cons body _ => stackPush (Obj.mac params body envId) s
             | _ => setErrorO "No body in macro: " (Obj.cons (Obj.sym n) rest) s
           | _ => setErrorO "No parameter list in macro: " (Obj.cons (Obj.sym n) rest) s
         else if n = "def" then
           match rest with
           | Obj.cons key rest2 =>
             match key with
             | Obj.sym _ =>
               if (evalInternal fuel envId rest2.carD s).error.isSome then
                 evalInternal fuel envId rest2.carD s
               else
                 stackPush (stackPop (evalInternal fuel envId rest2.carD s)).1
                   (globalEnvExtend key
                     (stackPop (evalInternal fuel envId rest2.carD s)).1
                     (stackPop (evalInternal fuel envId rest2.carD s)).2)
             | _ => setErrorO "Can\x27t assign to non-symbol: " (Obj.cons (Obj.sym n) rest) s
           | _ => setErrorO "Can\x27t assign to nil: " (Obj.cons (Obj.sym n) rest) s
         else if n = "def?" then
           match envLookupBindingLoc s envId rest.carD with
           | none => stackPush lisp_false s
           | some _ => stackPush lisp_true s
         else generalCall fuel envId (Obj.cons (Obj.sym n) rest) s) := rfl

/-- Balance for eval_list on a non-list object, which is pushed verbatim. -/
theorem plist_push (fuel envId : Nat) (o : Obj) (s res : IState)
    (hno : o.isConsB = false)
    (hres : evalList (fuel + 1) envId o s = res) (hok : okS res) :
    okS s ∧ Frame s.stack 1 res.stack := by
  rw [evalList_other fuel envId o s hno] at hres
  split at hres
  · rename_i hcr
    subst hres
    rw [hok.1] at hcr
    simp at hcr
  · rw [← hres] at hok
    refine ⟨(okS_stackPush hok).1, ?_⟩
    rw [← hres]
    exact frame_stackPush hok

/-- Balance for eval_list on a cons with a non-symbol head: a general call. -/
theorem plist_call (fuel envId : Nat) (head rest : Obj) (s res : IState)
    (hns : ∀ nm, head ≠ Obj.sym nm) (hGen : PGen fuel)
    (hres : evalList (fuel + 1) envId (Obj.cons head rest) s = res) (hok : okS res) :
    okS s ∧ Frame s.stack 1 res.stack := by
  rw [evalList_callHead fuel envId head rest s hns] at hres
  split at hres
  · rename_i hcr
    subst hres
    rw [hok.1] at hcr
    simp at hcr
  · exact hGen _ _ _ _ hres hok



/-- Step lemma for eval_list, one sub-proof per special form. -/
theorem step_list (fuel : Nat) (hInt : PInt fuel) (hDo : PDo fuel) (hLet : PLet fuel)
    (hNot : PNot fuel) (hWhile : PWhile fuel) (hMatch : PMatch fuel)
    (hGen : PGen fuel) : PList (fuel + 1) := by
  intro envId o s res hres hok
  cases o
  case cons head rest =>
    cases head
    case sym n =>
      rw [evalList_symHead] at hres
      by_cases hcr : s.crashed = true
      · rw [if_pos hcr] at hres
        rw [← hres] at hok
        rw [hok.1] at hcr
        exact Bool.noConfusion hcr
      · rw [if_neg hcr] at hres
        by_cases hdo : n = "do"
        · rw [if_pos hdo] at hres
          exact hDo _ _ _ _ hres hok
        · rw [if_neg hdo] at hres
          by_cases hlet2 : n = "let"
          · rw [if_pos hlet2] at hres
            split at hres
            · rename_i bindings rest2
              split at hres
              · rename_i herrL
                subst hres
                rw [hok.2] at herrL
                simp at herrL
              · rename_i herrL
                split at hres
                · rename_i body rest3
                  obtain ⟨hok2, hfr2⟩ := hInt _ _ _ _ hres hok
                  obtain ⟨hok1, hfr1⟩ := hLet _ _ _ _ rfl hok2
                  refine ⟨hok1, ?_⟩
                  exact frame_comp (show Frame s.stack 0 _ from hfr1) hfr2
                · rw [← hres] at hok
                  have h2 := hok.2
                  simp [setErrorO] at h2
            · rw [← hres] at hok
              have h2 := hok.2
              simp [setErrorO] at h2
          · rw [if_neg hlet2] at hres
            by_cases hnt : n = "not"
            · rw [if_pos hnt] at hres
              exact hNot _ _ _ _ hres hok
            · rw [if_neg hnt] at hres
              by_cases hq : n = "quote"
              · rw [if_pos hq] at hres
                split at hres
                · rw [← hres] at hok
                  refine ⟨(okS_stackPush hok).1, ?_⟩
                  rw [← hres]
                  exact frame_stackPush hok
                · rw [← hres] at hok
                  refine ⟨(okS_stackPush hok).1, ?_⟩
                  rw [← hres]
                  exact frame_stackPush hok
              · rw [if_neg hq] at hres
                by_cases hw : n = "while"
                · rw [if_pos hw] at hres
                  split at hres
                  · rename_i herrW
                    subst hres
                    rw [hok.2] at herrW
                    simp at herrW
                  · rename_i herrW
                    obtain ⟨hok1, hfrW⟩ := hWhile _ _ _ _ _ hres hok
                    obtain ⟨hok0, hfr1⟩ := hInt _ _ _ _ rfl hok1
                    refine ⟨hok0, ?_⟩
                    exact frame_comp (frame_dropOne hfr1) hfrW
                · rw [if_neg hw] at hres
                  by_cases hif : n = "if"
                  · rw [if_pos hif] at hres
                    split at hres
                    · rename_i herrI
                      subst hres
                      rw [hok.2] at herrI
                      simp at herrI
                    · rename_i herrI
                      split at hres
                      · obtain ⟨hok2, hfr2⟩ := hInt _ _ _ _ hres hok
                        obtain ⟨hok1, v2, r2, hst, hp⟩ := okS_stackPop hok2
                        obtain ⟨hok0, hfr1⟩ := hInt _ _ _ _ rfl hok1
                        refine ⟨hok0, ?_⟩
                        rw [hst] at hfr1
                        have hfrm : Frame s.stack 0 r2 := frame_pop hfr1
                        rw [hp] at hfr2
                        exact frame_comp hfrm (show Frame r2 1 _ from hfr2)
                      · obtain ⟨hok2, hfr2⟩ := hInt _ _ _ _ hres hok
                        obtain ⟨hok1, v2, r2, hst, hp⟩ := okS_stackPop hok2
                        obtain ⟨hok0, hfr1⟩ := hInt _ _ _ _ rfl hok1
                        refine ⟨hok0, ?_⟩
                        rw [hst] at hfr1
                        have hfrm : Frame s.stack 0 r2 := frame_pop hfr1
                        rw [hp] at hfr2
                        exact frame_comp hfrm (show Frame r2 1 _ from hfr2)
                  · rw [if_neg hif] at hres
                    by_cases hmt : n = "match"
                    · rw [if_pos hmt] at hres
                      split at hres
                      · rename_i herrM
                        subst hres
                        rw [hok.2] at herrM
                        simp at herrM
                      · rename_i herrM
                        obtain ⟨hok2, hfr2⟩ := hMatch _ _ _ _ _ hres hok
                        obtain ⟨hok1, v2, r2, hst, hp⟩ := okS_stackPop hok2
                        obtain ⟨hok0, hfr1⟩ := hInt _ _ _ _ rfl hok1
                        refine ⟨hok0, ?_⟩
                        rw [hst] at hfr1
                        have hfrm : Frame s.stack 0 r2 := frame_pop hfr1
                        rw [hp] at hfr2
                        exact frame_comp hfrm (show Frame r2 1 _ from hfr2)
                    · rw [if_neg hmt] at hres
                      by_cases hrs : n = "reset!"
                      · rw [if_pos hrs] at hres
                        split at hres
                        · rename_i key hkeyEq
                          split at hres
                          · rename_i ei pe hlocEq
                            split at hres
                            · rename_i bk bv hbEq
                              split at hres
                              · rename_i herrR
                                subst hres
                                rw [hok.2] at herrR
                                simp at herrR
                              · rename_i herrR
                                rw [← hres] at hok
                                obtain ⟨hokE, _⟩ := okS_stackPush hok
                                have hokP := (sameCore_okS
                                  (sameCore_envSetBindingVal _ _ _ _)).mp hokE
                                obtain ⟨hok1, v2, r2, hst, hp⟩ := okS_stackPop hokP
                                obtain ⟨hok0, hfr1⟩ := hInt _ _ _ _ rfl hok1
                                refine ⟨hok0, ?_⟩
                                rw [← hres]
                                rw [hst] at hfr1
                                have hfrm : Frame s.stack 0 r2 := frame_pop hfr1
                                have hb2 : ((stackPop (evalInternal fuel envId
                                    rest.cdrD.carD s)).2).stack = r2 := by rw [hp]
                                rw [← hb2] at hfrm
                                have hb := frame_stackPush hok
                                rw [(sameCore_envSetBindingVal _ _ _ _).1] at hb
                                exact frame_comp hfrm hb
                            · rw [← hres] at hok
                              refine ⟨(okS_stackPush hok).1, ?_⟩
                              rw [← hres]
                              exact frame_stackPush hok
                          · rw [← hres] at hok
                            refine ⟨(okS_stackPush hok).1, ?_⟩
                            rw [← hres]
                            exact frame_stackPush hok
                        · rw [← hres] at hok
                          have h2 := hok.2
                          simp [setErrorO] at h2
                      · rw [if_neg hrs] at hres
                        by_cases hfn : n = "fn"
                        · rw [if_pos hfn] at hres
                          split at hres
                          · rename_i params rest2
                            split at hres
                            · rw [← hres] at hok
                              refine ⟨(okS_stackPush hok).1, ?_⟩
                              rw [← hres]
                              exact frame_stackPush hok
                            · rw [← hres] at hok
                              have h2 := hok.2
                              simp [setErrorO] at h2
                          · rw [← hres] at hok
                            have h2 := hok.2
                            simp [setErrorO] at h2
                        · rw [if_neg hfn] at hres
                          by_cases hmc : n = "macro"
                          · rw [if_pos hmc] at hres
                            split at hres
                            · rename_i params rest2
                              split at hres
                              · rw [← hres] at hok
                                refine ⟨(okS_stackPush hok).1, ?_⟩
                                rw [← hres]
                                exact frame_stackPush hok
                              · rw [← hres] at hok
                                have h2 := hok.2
                                simp [setErrorO] at h2
                            · rw [← hres] at hok
                              have h2 := hok.2
                              simp [setErrorO] at h2
                          · rw [if_neg hmc] at hres
                            by_cases hdf : n = "def"
                            · rw [if_pos hdf] at hres
                              split at hres
                              · rename_i key rest2
                                split at hres
                                · rename_i kn
                                  split at hres
                                  · rename_i herrD
                                    subst hres
                                    rw [hok.2] at herrD
                                    simp at herrD
                                  · rename_i herrD
                                    rw [← hres] at hok
                                    obtain ⟨hokE, _⟩ := okS_stackPush hok
                                    have hokP : okS ((stackPop (evalInternal fuel envId
                                        rest2.carD s)).2) := hokE
                                    obtain ⟨hok1, v2, r2, hst, hp⟩ := okS_stackPop hokP
                                    obtain ⟨hok0, hfr1⟩ := hInt _ _ _ _ rfl hok1
                                    refine ⟨hok0, ?_⟩
                                    rw [← hres]
                                    rw [hst] at hfr1
                                    have hfrm : Frame s.stack 0 r2 := frame_pop hfr1
                                    have hb2 : ((stackPop (evalInternal fuel envId
                                        rest2.carD s)).2).stack = r2 := by rw [hp]
                                    rw [← hb2] at hfrm
                                    exact frame_comp hfrm (frame_stackPush hok)
                                · rw [← hres] at hok
                                  have h2 := hok.2
                                  simp [setErrorO] at h2
                              · rw [← hres] at hok
                                have h2 := hok.2
                                simp [setErrorO] at h2
                            · rw [if_neg hdf] at hres
                              by_cases hdq : n = "def?"
                              · rw [if_pos hdq] at hres
                                split at hres
                                · rw [← hres] at hok
                                  refine ⟨(okS_stackPush hok).1, ?_⟩
                                  rw [← hres]
                                  exact frame_stackPush hok
                                · rw [← hres] at hok
                                  refine ⟨(okS_stackPush hok).1, ?_⟩
                                  rw [← hres]
                                  exact frame_stackPush hok
                              · rw [if_neg hdq] at hres
                                exact hGen _ _ _ _ hres hok
    all_goals exact plist_call fuel envId _ rest s res (fun nm h => Obj.noConfusion h) hGen hres hok
  all_goals exact plist_push fuel envId _ s res (by rfl) hres hok



/-- All eleven balance statements hold at every fuel, by induction on fuel:
the base cases are vacuous because fuel exhaustion latches an error, and the
step cases are the per-function step lemmas. -/
theorem stackDiscipline : ∀ fuel, PInt fuel ∧ PDict fuel ∧ PList fuel ∧ PDo fuel ∧
    PLet fuel ∧ PNot fuel ∧ PWhile fuel ∧ PMatch fuel ∧ PArgs fuel ∧ PGen fuel ∧
    PApply fuel := by
  intro fuel
  induction fuel with
  | zero =>
    refine ⟨?_, ?_, ?_, ?_, ?_, ?_, ?_, ?_, ?_, ?_, ?_⟩
    all_goals first
      | (intro a b c d he hok
         rw [← he] at hok
         exact absurd hok (okS_fuelOut _))
      | (intro a b c d e he hok
         rw [← he] at hok
         exact absurd hok (okS_fuelOut _))
  | succ n ih =>
    obtain ⟨iInt, iDict, iList, iDo, iLet, iNot, iWhile, iMatch, iArgs, iGen, iApply⟩ := ih
    exact ⟨step_int n iDict iList, step_dict n iInt iDict,
      step_list n iInt iDo iLet iNot iWhile iMatch iGen,
      step_do n iInt iDo, step_let n iInt iLet, step_not n iInt iNot,
      step_while n iInt iWhile, step_match n iInt iMatch, step_args n iInt iArgs,
      step_gen n iInt iArgs iApply, step_apply n iInt⟩

/-- C1: for every form and environment, a run of the driver eval on a live
process first resets the latched error, the stack and the trace position;
if it returns without error or abort, the final stack is empty (net stack
change zero) and the internal evaluation left exactly the single returned
result on the stack; and the result of a driver call is insensitive to the
error cell, stack and trace position left behind by any previous call, so a
call after a failure evaluates as normal. -/
theorem c1_eval_stack_balance (fuel envId : Nat) (form : Obj) (s : IState)
    (hcr : s.crashed = false) :
    (∀ v sFin, eval fuel envId form s = (v, sFin) → okS sFin →
       sFin.stack = [] ∧
       (evalInternal fuel envId form
         { s with error := none, stack := [], funcTracePos := 0 }).stack = [v]) ∧
    (∀ err st tp,
       eval fuel envId form { s with error := err, stack := st, funcTracePos := tp }
         = eval fuel envId form s) := by
  have hne : ¬ (s.crashed = true) := by
    intro h
    rw [hcr] at h
    exact Bool.noConfusion h
  constructor
  · intro v sFin hev hokF
    simp only [eval] at hev
    rw [if_neg hne] at hev
    set S1 := evalInternal fuel envId form
      { s with error := none, stack := [], funcTracePos := 0 } with hS1
    have hokP : okS (stackPop S1).2 := by
      rw [hev]
      exact hokF
    obtain ⟨hok1, v2, r2, hst, hp⟩ := okS_stackPop hokP
    obtain ⟨_, hfr⟩ := (stackDiscipline fuel).1 envId form _ S1 hS1.symm hok1
    have hfr2 : Frame ([] : List Obj) 1 S1.stack := hfr
    obtain ⟨vs, d, hS, hlen⟩ := hfr2
    rw [List.drop_nil, List.append_nil, hst] at hS
    have hr2 : r2 = [] := by
      rw [← hS] at hlen
      simp only [List.length_cons] at hlen
      have hz : r2.length = 0 := by omega
      exact List.length_eq_zero.mp hz
    have hsfin : sFin = { S1 with stack := r2 } := by
      have h2 := congrArg Prod.snd hev
      rw [hp] at h2
      exact h2.symm
    have hv : v = v2 := by
      have h1 := congrArg Prod.fst hev
      rw [hp] at h1
      exact h1.symm
    constructor
    · rw [hsfin]
      exact hr2
    · rw [hst, hr2, hv]
  · intro err st tp
    have hne2 : ¬ (IState.crashed
        { s with error := err, stack := st, funcTracePos := tp } = true) := hne
    simp only [eval]
    rw [if_neg hne, if_neg hne2]

/-- Witness: the driver theorem applied to the literal form 7 in the start
state. -/
theorem c1_eval_stack_balance_witness :
    startState.crashed = false ∧
    ((∀ v sFin, eval 10 1 (Obj.int 7) startState = (v, sFin) → okS sFin →
        sFin.stack = [] ∧
        (evalInternal 10 1 (Obj.int 7)
          { startState with error := none, stack := [], funcTracePos := 0 }).stack = [v]) ∧
     (∀ err st tp,
        eval 10 1 (Obj.int 7)
            { startState with error := err, stack := st, funcTracePos := tp }
          = eval 10 1 (Obj.int 7) startState)) :=
  ⟨rfl, c1_eval_stack_balance 10 1 (Obj.int 7) startState rfl⟩


end Carp

namespace Carp


/-! ## Claim theorems: quote, rest patterns, reset!, let, match, def -/

/-- C9: evaluating (quote X) through the driver yields X itself, structurally
unchanged and unevaluated (the very same object, for every form X and every
non-crashed state), and (quote) with no argument yields Nil; neither latches
an error. -/
theorem c9_quote_identity (f envId : Nat) (X : Obj) (s : IState)
    (hc : s.crashed = false) :
    (eval (f + 2) envId (Obj.cons (Obj.sym "quote") (Obj.cons X Obj.nil)) s).1 = X
    ∧ (eval (f + 2) envId (Obj.cons (Obj.sym "quote") (Obj.cons X Obj.nil)) s).2.error = none
    ∧ (eval (f + 2) envId (Obj.cons (Obj.sym "quote") Obj.nil) s).1 = Obj.nil
    ∧ (eval (f + 2) envId (Obj.cons (Obj.sym "quote") Obj.nil) s).2.error = none := by
  obtain ⟨st, er, tp, envs, gid, outp, cr⟩ := s
  cases hc
  exact ⟨rfl, rfl, rfl, rfl⟩

/-- C9 witness: the quote identity theorem applied at the concrete form
(quote (1 2)) in the start state. -/
theorem c9_quote_identity_witness :
    (eval 10 1 (Obj.cons (Obj.sym "quote")
        (Obj.cons (fromList [Obj.int 1, Obj.int 2]) Obj.nil)) startState).1
      = fromList [Obj.int 1, Obj.int 2] :=
  (c9_quote_identity 8 1 (fromList [Obj.int 1, Obj.int 2]) startState rfl).1

/-- C4: when the current pattern head is the symbol ampersand and a next
pattern element exists, list matching returns exactly the recursive match of
that next element against the whole remaining subject tail, for every
remaining pattern restPat (never consulted) and every subject; concretely,
(match (list 1 2 3) (a & r) r) returns the list (2 3) with no error, and
(match (list 1) (a & r) r) returns the empty list. -/
theorem c4_rest_pattern (f envId : Nat) (q restPat subj : Obj) (s : IState) :
    objMatchLists (f + 1) envId (Obj.cons ampersand (Obj.cons q restPat)) subj s
      = objMatch f envId q subj s
    ∧ (eval 50 1 (fromList [Obj.sym "match",
        fromList [Obj.sym "list", Obj.int 1, Obj.int 2, Obj.int 3],
        fromList [Obj.sym "a", Obj.sym "&", Obj.sym "r"], Obj.sym "r"]) startState).1
      = fromList [Obj.int 2, Obj.int 3]
    ∧ (eval 50 1 (fromList [Obj.sym "match",
        fromList [Obj.sym "list", Obj.int 1],
        fromList [Obj.sym "a", Obj.sym "&", Obj.sym "r"], Obj.sym "r"]) startState).1
      = Obj.nil
    ∧ (eval 50 1 (fromList [Obj.sym "match",
        fromList [Obj.sym "list", Obj.int 1, Obj.int 2, Obj.int 3],
        fromList [Obj.sym "a", Obj.sym "&", Obj.sym "r"], Obj.sym "r"]) startState).2.error
      = none :=
  ⟨rfl, rfl, rfl, rfl⟩

/-- C10: a reset! whose target symbol has no binding anywhere on the
environment chain prints a diagnostic to standard output and pushes Nil as
the result, latching no error; the value expression is never evaluated (the
result does not depend on it, for every expression e and every fuel). -/
theorem c10_reset_unbound (f : Nat) (e : Obj) :
    (eval (f + 2) 1 (fromList [Obj.sym "reset!", Obj.sym "q", e]) startState).1 = Obj.nil
    ∧ (eval (f + 2) 1 (fromList [Obj.sym "reset!", Obj.sym "q", e]) startState).2.error = none
    ∧ (eval (f + 2) 1 (fromList [Obj.sym "reset!", Obj.sym "q", e]) startState).2.out
      = startState.out ++ ["Can\x27t reset! binding \x27q\x27"] :=
  ⟨rfl, rfl, rfl⟩

/-- C3 counterexample: the form (match 1 x) carries an uneven clause list
(the pattern x has no accompanying result), yet evaluation succeeds with no
latched error and yields Nil: the Uneven-forms check of the source compares
against a NULL cdr that reader-built lists never carry, and the missing
result form reads as NULL, which evaluates to Nil. -/
theorem c3_uneven_match_counterexample :
    (eval 20 1 (fromList [Obj.sym "match", Obj.int 1, Obj.sym "x"]) startState).2.error = none
    ∧ (eval 20 1 (fromList [Obj.sym "match", Obj.int 1, Obj.sym "x"]) startState).1 = Obj.nil :=
  ⟨rfl, rfl⟩

/-- C3 amended: clauses are attempted in order, each in a freshly forked
child environment (bindings of a failed attempt are invisible to later
clauses); on the first matching pattern the paired result is evaluated in
that extended environment and becomes the value of the form; when no pattern
matches, the no-match error is latched, also when the unpaired last pattern
of an uneven clause list fails; but an unpaired pattern that matches yields
Nil without error (its missing result form reads as NULL). -/
theorem c3_match_clause_semantics :
    (eval 30 1 (fromList [Obj.sym "match", Obj.int 2,
        fromList [Obj.sym "quote", Obj.int 1], Obj.int 10,
        Obj.sym "x", Obj.sym "x"]) startState).1 = Obj.int 2
    ∧ (eval 30 1 (fromList [Obj.sym "match", Obj.int 2,
        fromList [Obj.sym "quote", Obj.int 1], Obj.int 10,
        Obj.sym "x", Obj.sym "x"]) startState).2.error = none
    ∧ (eval 30 1 (fromList [Obj.sym "match",
        fromList [Obj.sym "quote", fromList [Obj.int 1, Obj.int 2]],
        fromList [Obj.sym "a", fromList [Obj.sym "quote", Obj.int 9]], Obj.int 5,
        fromList [Obj.sym "b", Obj.sym "c"], Obj.sym "a"]) startState).2.error
      = some (Obj.str "Can\x27t find \x27a\x27 in environment.")
    ∧ (eval 30 1 (fromList [Obj.sym "match", Obj.int 5,
        Obj.sym "x", Obj.sym "x"]) startState).1 = Obj.int 5
    ∧ (eval 30 1 (fromList [Obj.sym "match", Obj.int 5,
        fromList [Obj.sym "quote", Obj.int 1], Obj.int 2]) startState).2.error
      = some (Obj.str "Failed to find a suitable match for: ")
    ∧ (eval 30 1 (fromList [Obj.sym "match", Obj.int 5,
        fromList [Obj.sym "quote", Obj.int 1]]) startState).2.error
      = some (Obj.str "Failed to find a suitable match for: ")
    ∧ (eval 30 1 (fromList [Obj.sym "match", Obj.int 5, Obj.sym "x"]) startState).2.error
      = none
    ∧ (eval 30 1 (fromList [Obj.sym "match", Obj.int 5, Obj.sym "x"]) startState).1
      = Obj.nil :=
  ⟨rfl, rfl, rfl, rfl, rfl, rfl, rfl, rfl⟩

/-- C5 counterexample: the form (let (x) x) carries an uneven binding list
(the binder x has no accompanying value expression), yet evaluation succeeds
with no latched error and yields Nil: the Uneven-forms check of the source
compares against a NULL cdr that reader-built lists never carry, and the
missing value expression reads as NULL, which evaluates to Nil. -/
theorem c5_uneven_let_counterexample :
    (eval 20 1 (fromList [Obj.sym "let", fromList [Obj.sym "x"], Obj.sym "x"])
        startState).2.error = none
    ∧ (eval 20 1 (fromList [Obj.sym "let", fromList [Obj.sym "x"], Obj.sym "x"])
        startState).1 = Obj.nil :=
  ⟨rfl, rfl⟩

/-- C5 amended: a let form with a missing body or a non-symbol binder latches
an error, but an uneven binding list does not: the binder with no
accompanying value expression is bound to Nil (def? sees the binding) and the
let evaluates normally. -/
theorem c5_let_error_cases :
    (eval 20 1 (fromList [Obj.sym "let", fromList [Obj.sym "x", Obj.int 1]])
        startState).2.error = some (Obj.str "No body in \x27let\x27 form.")
    ∧ (eval 20 1 (fromList [Obj.sym "let", fromList [Obj.int 1, Obj.int 2], Obj.int 3])
        startState).2.error = some (Obj.str "Must bind to symbol in let form: ")
    ∧ (eval 20 1 (fromList [Obj.sym "let", fromList [Obj.sym "x"],
        fromList [Obj.sym "def?", Obj.sym "x"]]) startState).1 = lisp_true
    ∧ (eval 20 1 (fromList [Obj.sym "let", fromList [Obj.sym "x"], Obj.sym "x"])
        startState).1 = Obj.nil
    ∧ (eval 20 1 (fromList [Obj.sym "let", fromList [Obj.sym "x"], Obj.sym "x"])
        startState).2.error = none :=
  ⟨rfl, rfl, rfl, rfl, rfl⟩

/-- C6: let evaluates its binding expressions strictly left-to-right in the
growing let environment, a fresh child of the enclosing one: an earlier
binding is visible to every later binding expression (x bound to any integer
i is seen by the expression of y, and the body reads y in the final extended
environment), a later binder is not visible earlier (reading x before its
binding latches the unbound-name error), and the bindings do not leak into
the enclosing environment (reading x after the let latches the same
error). -/
theorem c6_let_left_to_right (i : Int) :
    (eval 60 1 (fromList [Obj.sym "let",
        fromList [Obj.sym "x", Obj.int i, Obj.sym "y", Obj.sym "x"],
        Obj.sym "y"]) startState).1 = Obj.int i
    ∧ (eval 60 1 (fromList [Obj.sym "let",
        fromList [Obj.sym "x", Obj.int i, Obj.sym "y", Obj.sym "x"],
        Obj.sym "y"]) startState).2.error = none
    ∧ (eval 60 1 (fromList [Obj.sym "let",
        fromList [Obj.sym "y", Obj.sym "x", Obj.sym "x", Obj.int i],
        Obj.sym "y"]) startState).2.error
      = some (Obj.str "Can\x27t find \x27x\x27 in environment.")
    ∧ (eval 60 1 (fromList [Obj.sym "do",
        fromList [Obj.sym "let", fromList [Obj.sym "x", Obj.int i], Obj.sym "x"],
        Obj.sym "x"]) startState).2.error
      = some (Obj.str "Can\x27t find \x27x\x27 in environment.") :=
  ⟨rfl, rfl, rfl, rfl⟩

/-- C8: (def g e) evaluates e first and on success extends the global
environment (index 0) with the binding, leaving the local environment (index
1, where the form is evaluated) untouched, and pushes the value as the
result, for every integer value; when evaluating e latches an error, no
binding is created anywhere (the environment heap is unchanged). -/
theorem c8_def_global (i : Int) :
    (eval 60 1 (fromList [Obj.sym "def", Obj.sym "g", Obj.int i]) startState).1 = Obj.int i
    ∧ (eval 60 1 (fromList [Obj.sym "def", Obj.sym "g", Obj.int i]) startState).2.error = none
    ∧ (getEnv (eval 60 1 (fromList [Obj.sym "def", Obj.sym "g", Obj.int i]) startState).2 0).bindings
      = (Obj.sym "g", Obj.int i) :: (getEnv startState 0).bindings
    ∧ (getEnv (eval 60 1 (fromList [Obj.sym "def", Obj.sym "g", Obj.int i]) startState).2 1).bindings
      = []
    ∧ (eval 60 1 (fromList [Obj.sym "def", Obj.sym "g", Obj.sym "zzz"]) startState).2.error
      = some (Obj.str "Can\x27t find \x27zzz\x27 in environment.")
    ∧ (eval 60 1 (fromList [Obj.sym "def", Obj.sym "g", Obj.sym "zzz"]) startState).2.envs
      = startState.envs :=
  ⟨rfl, rfl, rfl, rfl, rfl, rfl⟩



/-! ## Macro calls and foreign arity -/

/-- Argument loop in macro mode: the argument forms of a proper list are
pushed verbatim, unevaluated, and counted, given enough fuel and stack
room. -/
theorem evalArgs_noeval (args : List Obj) : ∀ (fuel envId : Nat) (s : IState),
    s.crashed = false → s.error = none → args.length + 1 ≤ fuel →
    s.stack.length + args.length ≤ STACK_SIZE →
    evalArgs fuel envId false (fromList args) s
      = (args.length, { s with stack := args.reverse ++ s.stack }) := by
  induction args with
  | nil =>
    intro fuel envId s hc he hf hs
    obtain ⟨g, rfl⟩ : ∃ g, fuel = g + 1 := ⟨fuel - 1, by omega⟩
    simp [evalArgs, fromList]
  | cons a rest ih =>
    intro fuel envId s hc he hf hs
    obtain ⟨g, rfl⟩ : ∃ g, fuel = g + 1 := ⟨fuel - 1, by omega⟩
    obtain ⟨st, er, tp, envs, gid, outp, cr⟩ := s
    cases hc
    cases he
    simp only [List.length_cons] at hf hs
    have hlen : ¬ (STACK_SIZE ≤ st.length) := by omega
    have h4 : (a :: st).length + rest.length ≤ STACK_SIZE := by
      simp only [List.length_cons]; omega
    have ih2 := ih g envId ⟨a :: st, none, tp, envs, gid, outp, false⟩
      rfl rfl (by omega) h4
    simp only [fromList, evalArgs, stackPush, hlen]
    simp [ih2, List.append_assoc]

/-- Popping as many values as a prefix holds returns that prefix reversed and
restores the stack below it. -/
theorem popN_prefix (pre : List Obj) : ∀ (s : IState),
    s.crashed = false → s.error = none →
    popN pre.length { s with stack := pre ++ s.stack } = (pre.reverse, s) := by
  induction pre with
  | nil => intro s hc he; simp [popN]
  | cons v rest ih =>
    intro s hc he
    have hpop : stackPop { s with stack := v :: (rest ++ s.stack) }
        = (v, { s with stack := rest ++ s.stack }) := by
      simp [stackPop, hc, he]
    simp only [List.length_cons, popN, List.cons_append, hpop, ih s hc he]
    simp


/-- C2: a call whose head is a Macro value receives its argument forms
unevaluated: for every parameter list, body, captured environment index,
argument-form list and non-crashed, non-errored state with enough fuel and
stack room, the call equals the two-phase composition, namely the macro body
evaluated in a fresh child of the captured environment extended with the
verbatim argument forms, followed by the popped expansion evaluated in the
calling environment.  Concretely, a macro with body (quote (quote foo))
called with no arguments evaluates to the symbol foo, while the same body as
a lambda (fn) evaluates to the list (quote foo). -/
theorem c2_macro_two_phase (f envId cid : Nat) (params body : Obj) (args : List Obj)
    (s : IState) (hc : s.crashed = false) (he : s.error = none)
    (hf : args.length + 1 ≤ f) (hs : s.stack.length + args.length < STACK_SIZE) :
    (generalCall (f + 1) envId (Obj.cons (Obj.mac params body cid) (fromList args)) s
      = (let (ce, s5) := envNew cid s
         let s6 := envExtendWithArgs ce params args s5
         let s7 := evalInternal f ce body s6
         if s7.error.isSome then s7
         else
           let (expanded, s8) := stackPop s7
           evalInternal f envId expanded s8))
    ∧ (eval 20 1 (fromList [fromList [Obj.sym "macro", Obj.nil,
        fromList [Obj.sym "quote", fromList [Obj.sym "quote", Obj.sym "foo"]]]]) startState).1
      = Obj.sym "foo"
    ∧ (eval 20 1 (fromList [fromList [Obj.sym "macro", Obj.nil,
        fromList [Obj.sym "quote", fromList [Obj.sym "quote", Obj.sym "foo"]]]]) startState).2.error
      = none
    ∧ (eval 20 1 (fromList [fromList [Obj.sym "fn", Obj.nil,
        fromList [Obj.sym "quote", fromList [Obj.sym "quote", Obj.sym "foo"]]]]) startState).1
      = fromList [Obj.sym "quote", Obj.sym "foo"]
    ∧ (eval 20 1 (fromList [fromList [Obj.sym "fn", Obj.nil,
        fromList [Obj.sym "quote", fromList [Obj.sym "quote", Obj.sym "foo"]]]]) startState).2.error
      = none := by
  refine ⟨?_, rfl, rfl, rfl, rfl⟩
  obtain ⟨g, rfl⟩ : ∃ g, f = g + 1 := ⟨f - 1, by omega⟩
  obtain ⟨st, er, tp, envs, gid, outp, cr⟩ := s
  cases hc; cases he
  have hs2 : st.length + args.length < STACK_SIZE := hs
  have hlen : ¬ (STACK_SIZE ≤ st.length) := by omega
  have hhead : evalInternal (g + 1) envId (Obj.mac params body cid)
      ⟨st, none, tp, envs, gid, outp, false⟩
      = ⟨Obj.mac params body cid :: st, none, tp, envs, gid, outp, false⟩ := by
    simp [evalInternal, stackPush, hlen]
  have hargs := evalArgs_noeval args (g + 1) envId ⟨st, none, tp, envs, gid, outp, false⟩
    rfl rfl hf (by omega)
  have hpop := popN_prefix args.reverse ⟨st, none, tp, envs, gid, outp, false⟩ rfl rfl
  simp only [List.length_reverse, List.reverse_reverse] at hpop
  simp only [generalCall, Obj.carD, Obj.cdrD, hhead, stackPop, Obj.isMac, hargs, hpop]
  simp [stackPop, hargs, hpop]


/-- Marshalling an int-argument array against an int type list: the walk
succeeds while types remain, leaving the unconsumed tail, and latches the
Too-many error exactly when the arguments outlast the types. -/
theorem foreignCheckArgs_replicate (n : Nat) : ∀ (m : Nat) (fobj : Obj) (s : IState),
    foreignCheckArgs fobj (List.replicate n (Obj.int 0))
        (fromList (List.replicate m type_int)) s
      = (if n ≤ m then (fromList (List.replicate (m - n) type_int), s)
         else (Obj.nil, setErrorO "Too many arguments to " fobj s)) := by
  induction n with
  | zero =>
    intro m fobj s
    simp [foreignCheckArgs]
  | succ n ih =>
    intro m fobj s
    match m with
    | 0 =>
      simp [List.replicate, fromList, foreignCheckArgs]
    | m + 1 =>
      have : objEq type_int type_int = true := rfl
      simp [List.replicate_succ, fromList, foreignCheckArgs, this, ih m fobj s,
        Nat.succ_le_succ_iff, Nat.succ_sub_succ]

/-- Pushing never changes the latched error cell. -/
theorem stackPush_error (o : Obj) (s : IState) : (stackPush o s).error = s.error := by
  simp only [stackPush]
  split
  · rfl
  · split <;> rfl

/-- C7: applying a Foreign function (with a present native pointer) whose
declared argument-type list has m entries to n arguments latches the
Too-many-arguments error when the type list runs out before the arguments
(n exceeds m), the Too-few-arguments error when types remain unconsumed
after all arguments are marshalled (n is short of m), and no error at all
when the arities agree. -/
theorem c7_foreign_arity (f n m : Nat) (s : IState)
    (hc : s.crashed = false) (he : s.error = none) :
    (m < n →
      (applyF (f + 1) (Obj.foreign true (fromList (List.replicate m type_int)) type_void)
        (List.replicate n (Obj.int 0)) s).error
      = some (Obj.str "Too many arguments to "))
    ∧ (n < m →
      (applyF (f + 1) (Obj.foreign true (fromList (List.replicate m type_int)) type_void)
        (List.replicate n (Obj.int 0)) s).error
      = some (Obj.str "Too few arguments to "))
    ∧ (n = m →
      (applyF (f + 1) (Obj.foreign true (fromList (List.replicate m type_int)) type_void)
        (List.replicate n (Obj.int 0)) s).error = none) := by
  have hrep := foreignCheckArgs_replicate n m
    (Obj.foreign true (fromList (List.replicate m type_int)) type_void) s
  refine ⟨?_, ?_, ?_⟩
  · intro hmn
    have hnm : ¬ (n ≤ m) := by omega
    simp [applyF, hrep, hnm, setErrorO]
  · intro hnm
    have hle : n ≤ m := by omega
    obtain ⟨k, hk⟩ : ∃ k, m - n = k + 1 := ⟨m - n - 1, by omega⟩
    simp [applyF, hrep, hle, hk, List.replicate_succ, fromList, setErrorO, he]
  · intro hnm
    subst hnm
    have hsub : n - n = 0 := by omega
    have hret : ffiDefaultResult type_void = some Obj.nil := rfl
    simp [applyF, hrep, hsub, List.replicate, fromList, hret, stackPush_error, he]


/-- C2 witness: the two-phase equation applied to a concrete zero-argument
macro with body 7 in the start state. -/
theorem c2_macro_two_phase_witness :
    generalCall 2 1 (Obj.cons (Obj.mac Obj.nil (Obj.int 7) 0) (fromList [])) startState
      = (let (ce, s5) := envNew 0 startState
         let s6 := envExtendWithArgs ce Obj.nil [] s5
         let s7 := evalInternal 1 ce (Obj.int 7) s6
         if s7.error.isSome then s7
         else
           let (expanded, s8) := stackPop s7
           evalInternal 1 1 expanded s8) :=
  (c2_macro_two_phase 1 1 0 Obj.nil (Obj.int 7) [] startState rfl rfl (by decide)
    (by decide)).1

/-- C7 witness: the arity theorem applied to two int arguments against one
declared int parameter in the start state. -/
theorem c7_foreign_arity_witness :
    (applyF 3 (Obj.foreign true (fromList (List.replicate 1 type_int)) type_void)
        (List.replicate 2 (Obj.int 0)) startState).error
      = some (Obj.str "Too many arguments to ") :=
  (c7_foreign_arity 2 2 1 startState rfl rfl).1 (by decide)


end Carp

